import Mathlib

/-!
# MemoryPool: size classes and the Central Cache

A shallow embedding of `include/Common.h` and `src/CentralCache.cpp`.

* `size_t` values are natural numbers below `2 ^ 64`; every `size_t` and pointer
  operation of the source is written with the wrapping operations `wadd`, `wsub`, `wmul`.
* A pointer is its address (a natural number), the null pointer is `0`.
* The heap is a map from addresses to pointer-sized words: `*reinterpret_cast<void**>(p)`
  reads or writes the word stored at address `p`.  Every access of the modelled code is
  such a pointer-sized access at the base address of a block; blocks are at least
  `ALIGNMENT = 8` bytes long and do not overlap, so the link words of distinct blocks are
  distinct words of the heap.
* Clock readings are integers, in nanoseconds.
* The Page Layer is outside the sources: its answer to `allocateSpan` is an argument of
  `FetchRange`, and the calls made to it are recorded in the state.
* A spinning `test_and_set` loop on a flag that is already set never ends in a
  sequential run: the operation then returns no result (`none`).
* Loops that follow links through the heap take a `fuel` bound and return `none`
  when the bound is used up before the loop ends.
-/

namespace My_MemoryPool

/-! ## `include/Common.h` -/

/-- Number of values of a 64-bit `size_t`. -/
def SIZE_T_RANGE : Nat := 2 ^ 64

/-- Wrapping `size_t` addition. -/
def wadd (a b : Nat) : Nat := (a + b) % SIZE_T_RANGE

/-- Wrapping `size_t` subtraction. -/
def wsub (a b : Nat) : Nat := (a + (SIZE_T_RANGE - b % SIZE_T_RANGE)) % SIZE_T_RANGE

/-- Wrapping `size_t` multiplication. -/
def wmul (a b : Nat) : Nat := (a * b) % SIZE_T_RANGE

/-- Bitwise complement `~a` of a `size_t`. -/
def wnot (a : Nat) : Nat := SIZE_T_RANGE - 1 - a % SIZE_T_RANGE

/-- `constexpr size_t ALIGNMENT = 8;` -/
def ALIGNMENT : Nat := 8

/-- `constexpr size_t MAX_BYTES = 256 * 1024;` -/
def MAX_BYTES : Nat := 256 * 1024

/-- `constexpr size_t FREE_LIST_SIZE = MAX_BYTES / ALIGNMENT;` -/
def FREE_LIST_SIZE : Nat := MAX_BYTES / ALIGNMENT

/-- `SizeClass::RoundUp`: `(bytes + (ALIGNMENT - 1)) & ~(ALIGNMENT - 1)`. -/
def RoundUp (bytes : Nat) : Nat :=
  (wadd bytes (wsub ALIGNMENT 1)) &&& (wnot (wsub ALIGNMENT 1))

/-- `SizeClass::GetIndex`: `bytes = max(bytes, ALIGNMENT)` and then
`(bytes + (ALIGNMENT - 1)) / ALIGNMENT - 1`. -/
def GetIndex (bytes : Nat) : Nat :=
  let bytes := max bytes ALIGNMENT
  wsub (wadd bytes (wsub ALIGNMENT 1) / ALIGNMENT) 1

/-- Block size of a class, `(index + 1) * ALIGNMENT`, as computed in
`CentralCache::FetchRange` and `CentralCache::ReturnRange`. -/
def blockSize (index : Nat) : Nat := wmul (wadd index 1) ALIGNMENT

/-! ## Constants declared in headers outside the sources -/

/-- Constants that `CentralCache.cpp` uses from `PageCache.h` and `CentralCache.h`:
`PageCache::PAGE_SIZE`, `CentralCache::MAX_DELAY_COUNT` and the number of slots
`spanTrackers_.size()` of the tracker array. -/
structure Config where
  /-- `PageCache::PAGE_SIZE` -/
  PAGE_SIZE : Nat
  /-- `CentralCache::MAX_DELAY_COUNT` -/
  MAX_DELAY_COUNT : Nat
  /-- `spanTrackers_.size()` -/
  trackerSlots : Nat

/-- `static const size_t SPAN_PAGES = 8;` -/
def SPAN_PAGES : Nat := 8

/-- `CentralCache::DELAY_INTERVAL{1000}` milliseconds, in the nanosecond ticks in which
clock readings are given. -/
def DELAY_INTERVAL : Int := 1000 * 1000000

/-! ## State -/

/-- `SpanTracker`: the four atomic fields of one slot of `spanTrackers_`. -/
structure SpanTracker where
  spanAddr : Nat
  numPages : Nat
  blockCount : Nat
  freeCount : Nat
deriving DecidableEq

/-- The heap: the pointer-sized word stored at each address. -/
abbrev Heap := Nat → Nat

/-- Store `v` at address `a`. -/
def Heap.write (m : Heap) (a v : Nat) : Heap := fun x => if x = a then v else m x

/-- Replace entry `i` of an array. -/
def setAt {α : Type} (f : Nat → α) (i : Nat) (v : α) : Nat → α :=
  fun x => if x = i then v else f x

/-- The members of `CentralCache`, the heap they point into, and the record of the calls
made to the Page Layer (`PageCache::allocateSpan`, `PageCache::deallocateSpan`). -/
structure CentralCache where
  mem : Heap
  centralFreeList : Nat → Nat
  locks : Nat → Bool
  delayCounts : Nat → Nat
  lastReturnTimes : Nat → Int
  spanTrackers : Nat → SpanTracker
  spanCount : Nat
  /-- page counts passed to `allocateSpan`, latest first -/
  allocLog : List Nat
  /-- arguments passed to `deallocateSpan`, latest first -/
  deallocLog : List (Nat × Nat)

/-- `CentralCache::CentralCache()`, on a heap `mem`, with tracker slots holding `trackers`
and the clock reading `now`. -/
def CentralCache.init (mem : Heap) (trackers : Nat → SpanTracker) (now : Int) : CentralCache :=
  { mem := mem
    centralFreeList := fun _ => 0
    locks := fun _ => false
    delayCounts := fun _ => 0
    lastReturnTimes := fun _ => now
    spanTrackers := trackers
    spanCount := 0
    allocLog := []
    deallocLog := [] }

/-! ## `src/CentralCache.cpp` -/

/-- Range test of `GetSpanTracker` and `UpdateSpanFreeCount`:
`p >= spanAddr && p < spanAddr + numPages * PAGE_SIZE`. -/
def inSpan (cfg : Config) (spanAddr numPages p : Nat) : Bool :=
  decide (spanAddr ≤ p) && decide (p < wadd spanAddr (wmul numPages cfg.PAGE_SIZE))

/-- `CentralCache::GetSpanTracker`: the first slot `i < spanCount_` whose range holds
`blockAddr`; `none` is the null result. -/
def GetSpanTracker (cfg : Config) (s : CentralCache) (blockAddr : Nat) : Option Nat :=
  (List.range s.spanCount).find? fun i =>
    inSpan cfg (s.spanTrackers i).spanAddr (s.spanTrackers i).numPages blockAddr

/-- `CentralCache::FetchFromPageCache`: the page count passed to `allocateSpan`. -/
def pagesRequested (cfg : Config) (size : Nat) : Nat :=
  let numPages := wsub (wadd size cfg.PAGE_SIZE) 1 / cfg.PAGE_SIZE
  if size ≤ wmul SPAN_PAGES cfg.PAGE_SIZE then SPAN_PAGES else numPages

/-- `CentralCache::FetchFromPageCache`; `allocateSpan` is the answer of the Page Layer
to a request for a number of pages. -/
def FetchFromPageCache (cfg : Config) (allocateSpan : Nat → Nat) (size : Nat)
    (s : CentralCache) : Nat × CentralCache :=
  let n := pagesRequested cfg size
  (allocateSpan n, { s with allocLog := n :: s.allocLog })

/-- The carving loop of `FetchRange`, lines 73-77: `n` iterations from counter `i`, each
storing `start + i * size` at `start + (i - 1) * size`. -/
def carveLoop (start size : Nat) : Nat → Nat → Heap → Heap
  | 0, _, m => m
  | n + 1, i, m =>
    carveLoop start size n (i + 1)
      (m.write (wadd start (wmul (wsub i 1) size)) (wadd start (wmul i size)))

/-- Page count that `FetchRange` uses for carving (lines 65-66). -/
def carvePages (cfg : Config) (size : Nat) : Nat :=
  if size ≤ wmul SPAN_PAGES cfg.PAGE_SIZE then SPAN_PAGES
  else wsub (wadd size cfg.PAGE_SIZE) 1 / cfg.PAGE_SIZE

/-- Release `locks_[index]`. -/
def unlock (index : Nat) (s : CentralCache) : CentralCache :=
  { s with locks := setAt s.locks index false }

/-- The miss branch of `FetchRange` after a span was obtained (lines 61-95). -/
def carveSpan (cfg : Config) (index size result : Nat) (s : CentralCache) : CentralCache :=
  let start := result
  let numPages := carvePages cfg size
  let blockNum := wmul numPages cfg.PAGE_SIZE / size
  if 1 < blockNum then
    let m1 := carveLoop start size blockNum 0 s.mem
    let m2 := m1.write (wadd start (wmul (wsub blockNum 1) size)) 0
    let next := m2 result
    let m3 := m2.write result 0
    let trackerIndex := s.spanCount
    { s with
      mem := m3
      centralFreeList := setAt s.centralFreeList index next
      spanCount := wadd s.spanCount 1
      spanTrackers :=
        if trackerIndex < cfg.trackerSlots then
          setAt s.spanTrackers trackerIndex
            { spanAddr := start, numPages := numPages, blockCount := blockNum,
              freeCount := wsub blockNum 1 }
        else s.spanTrackers }
  else s

/-- The hit branch of `FetchRange` (lines 97-110). -/
def popHead (cfg : Config) (index result : Nat) (s : CentralCache) : CentralCache :=
  let next := s.mem result
  let s1 : CentralCache :=
    { s with mem := s.mem.write result 0, centralFreeList := setAt s.centralFreeList index next }
  match GetSpanTracker cfg s1 result with
  | some t =>
    { s1 with
      spanTrackers := setAt s1.spanTrackers t
        { s1.spanTrackers t with freeCount := wsub (s1.spanTrackers t).freeCount 1 } }
  | none => s1

/-- `CentralCache::FetchRange`.  The result is the returned pointer and the state after the
call; `none` when the call spins forever on a lock that is held. -/
def FetchRange (cfg : Config) (allocateSpan : Nat → Nat) (index : Nat) (s : CentralCache) :
    Option (Nat × CentralCache) :=
  if FREE_LIST_SIZE ≤ index then some (0, s)
  else if s.locks index then none
  else
    let s := { s with locks := setAt s.locks index true }
    let result := s.centralFreeList index
    if result = 0 then
      let size := blockSize index
      let (result, s) := FetchFromPageCache cfg allocateSpan size s
      if result = 0 then some (0, unlock index s)
      else some (result, unlock index (carveSpan cfg index size result s))
    else some (result, unlock index (popHead cfg index result s))

/-- The walk of `ReturnRange`, lines 137-142: follow links from `end` while the link is not
null and `count < blockCount`.  The loop runs fewer than `blockCount` times, which bounds
the recursion: it is started with the bound `blockCount`. -/
def findEnd (m : Heap) (blockCount : Nat) : Nat → Nat → Nat → Nat
  | 0, end_, _ => end_
  | bound + 1, end_, count =>
    if m end_ ≠ 0 ∧ count < blockCount then findEnd m blockCount bound (m end_) (count + 1)
    else end_

/-- Step 1 of `ReturnRange` (lines 137-146): link the returned chain in front of the
class free list. -/
def linkChain (start blockCount index : Nat) (s : CentralCache) : CentralCache :=
  let end_ := findEnd s.mem blockCount blockCount start 1
  let current := s.centralFreeList index
  { s with
    mem := s.mem.write end_ current
    centralFreeList := setAt s.centralFreeList index start }

/-- `CentralCache::ShouldPerformDelayedReturn`. -/
def ShouldPerformDelayedReturn (cfg : Config) (index currentCount : Nat) (currentTime : Int)
    (s : CentralCache) : Bool :=
  if cfg.MAX_DELAY_COUNT ≤ currentCount then true
  else
    let lastTime := s.lastReturnTimes index
    decide (DELAY_INTERVAL ≤ currentTime - lastTime)

/-- `spanFreeCounts[tracker]++` on the scratch map of `PerformDelayedReturn`, kept as an
association list from tracker slots to counts, in order of first insertion. -/
def tallyBump : List (Nat × Nat) → Nat → List (Nat × Nat)
  | [], t => [(t, 1)]
  | (k, n) :: rest, t =>
    if k = t then (k, wadd n 1) :: rest else (k, n) :: tallyBump rest t

/-- The counting walk of `PerformDelayedReturn`, lines 189-195. -/
def tallyLoop (cfg : Config) (s : CentralCache) :
    Nat → Nat → List (Nat × Nat) → Option (List (Nat × Nat))
  | 0, currentBlock, acc => if currentBlock = 0 then some acc else none
  | fuel + 1, currentBlock, acc =>
    if currentBlock = 0 then some acc
    else
      tallyLoop cfg s fuel (s.mem currentBlock)
        (match GetSpanTracker cfg s currentBlock with
         | some tracker => tallyBump acc tracker
         | none => acc)

/-- The splice loop of `UpdateSpanFreeCount`, lines 220-233, on the heap `m` with the
loop variables `newHead`, `prev`, `current`; the result is the heap and `newHead` at
loop exit. -/
def spliceLoop (cfg : Config) (spanAddr numPages : Nat) :
    Nat → Heap → Nat → Nat → Nat → Option (Heap × Nat)
  | 0, m, newHead, _, current => if current = 0 then some (m, newHead) else none
  | fuel + 1, m, newHead, prev, current =>
    if current = 0 then some (m, newHead)
    else
      let next := m current
      if inSpan cfg spanAddr numPages current then
        if prev ≠ 0 then spliceLoop cfg spanAddr numPages fuel (m.write prev next) newHead prev next
        else spliceLoop cfg spanAddr numPages fuel m next prev next
      else spliceLoop cfg spanAddr numPages fuel m newHead current next

/-- `CentralCache::UpdateSpanFreeCount`; `tracker` is the slot of the tracker. -/
def UpdateSpanFreeCount (cfg : Config) (fuel : Nat) (tracker newFreeBlocks index : Nat)
    (s : CentralCache) : Option CentralCache :=
  let oldFreeCount := (s.spanTrackers tracker).freeCount
  let newFreeCount := wadd oldFreeCount newFreeBlocks
  let s : CentralCache :=
    { s with
      spanTrackers := setAt s.spanTrackers tracker
        { s.spanTrackers tracker with freeCount := newFreeCount } }
  if newFreeCount = (s.spanTrackers tracker).blockCount then
    let spanAddr := (s.spanTrackers tracker).spanAddr
    let numPages := (s.spanTrackers tracker).numPages
    let head := s.centralFreeList index
    match spliceLoop cfg spanAddr numPages fuel s.mem 0 0 head with
    | none => none
    | some (m, newHead) =>
      some { s with
        mem := m
        centralFreeList := setAt s.centralFreeList index newHead
        deallocLog := (spanAddr, numPages) :: s.deallocLog }
  else some s

/-- The update loop of `PerformDelayedReturn`, lines 198-200, over the entries of the
scratch map.  The iteration order of `std::unordered_map` is unspecified; the entries
are taken in order of first insertion. -/
def updateAll (cfg : Config) (fuel index : Nat) :
    List (Nat × Nat) → CentralCache → Option CentralCache
  | [], s => some s
  | (tracker, newFreeBlocks) :: rest, s =>
    match UpdateSpanFreeCount cfg fuel tracker newFreeBlocks index s with
    | none => none
    | some s1 => updateAll cfg fuel index rest s1

/-- `CentralCache::PerformDelayedReturn`; `now` is the clock reading of line 183. -/
def PerformDelayedReturn (cfg : Config) (now : Int) (fuel index : Nat) (s : CentralCache) :
    Option CentralCache :=
  let s : CentralCache :=
    { s with
      delayCounts := setAt s.delayCounts index 0
      lastReturnTimes := setAt s.lastReturnTimes index now }
  match tallyLoop cfg s fuel (s.centralFreeList index) [] with
  | none => none
  | some spanFreeCounts => updateAll cfg fuel index spanFreeCounts s

/-- `CentralCache::ReturnRange`; `currentTime` is the clock reading of line 150 and `now`
the one of line 183.  `none` when the call does not return: it spins on a held lock, or
a walk through the free list does not end within `fuel` steps. -/
def ReturnRange (cfg : Config) (currentTime now : Int) (fuel : Nat) (start size index : Nat)
    (s : CentralCache) : Option CentralCache :=
  if start = 0 ∨ FREE_LIST_SIZE ≤ index then some s
  else
    let blockSize := blockSize index
    let blockCount := size / blockSize
    if s.locks index then none
    else
      let s := { s with locks := setAt s.locks index true }
      let s := linkChain start blockCount index s
      let currentCount := wadd (s.delayCounts index) 1
      let s := { s with delayCounts := setAt s.delayCounts index currentCount }
      if ShouldPerformDelayedReturn cfg index currentCount currentTime s then
        (PerformDelayedReturn cfg now fuel index s).map (unlock index)
      else some (unlock index s)

/-! ## Free lists in the heap -/

/-- The intrusive list that starts at `head` consists of the blocks `l`, in this order,
and ends with a null link. -/
def IsList (m : Heap) : Nat → List Nat → Prop
  | head, [] => head = 0
  | head, b :: bs => head = b ∧ b ≠ 0 ∧ IsList m (m b) bs

/-- Walk the list from `head`, collecting its blocks; `none` when it does not end within
`fuel` links. -/
def listOf (m : Heap) : Nat → Nat → Option (List Nat)
  | 0, head => if head = 0 then some [] else none
  | fuel + 1, head =>
    if head = 0 then some [] else (listOf m fuel (m head)).map (head :: ·)


/-- The blocks `k, k + 1, …` (`cnt` of them) of size `size` in a span at `start`. -/
def spanBlocks (start size k cnt : Nat) : List Nat :=
  (List.range' k cnt).map fun j => start + j * size

/-! ## Specification-level descriptions used in the statements -/

/-- What the splice loop of `UpdateSpanFreeCount` leaves of a class list `l` when it
removes the range of the span `(spanAddr, numPages)`: the blocks outside the range when
the first block of `l` lies in the range, and nothing when the first block is kept
(`newHead` is then never assigned). -/
def spliceResult (cfg : Config) (spanAddr numPages : Nat) : List Nat → List Nat
  | [] => []
  | b :: bs =>
    if inSpan cfg spanAddr numPages b then
      (b :: bs).filter fun x => !inSpan cfg spanAddr numPages x
    else []

/-- What a delayed-return pass leaves alone: the delay bookkeeping of the pass itself
apart, a step of the pass keeps the locks, `spanCount_` and the request log, only adds to
the record of `deallocateSpan` calls, and changes the heap and the list heads only if it
adds to that record. -/
def PassFrame (s s1 : CentralCache) : Prop :=
  s1.delayCounts = s.delayCounts ∧ s1.lastReturnTimes = s.lastReturnTimes ∧
  s1.locks = s.locks ∧ s1.spanCount = s.spanCount ∧ s1.allocLog = s.allocLog ∧
  s.deallocLog.length ≤ s1.deallocLog.length ∧
  (s1.deallocLog.length ≤ s.deallocLog.length →
    s1.mem = s.mem ∧ s1.centralFreeList = s.centralFreeList ∧ s1.deallocLog = s.deallocLog)

/-- The state of `ReturnRange` when it reaches the check of line 153: the lock is held, the
chain is linked in front of the class list and `delay_count[index]` is incremented. -/
def linkedState (start size index : Nat) (s : CentralCache) : CentralCache :=
  let s1 := linkChain start (size / blockSize index) index
    { s with locks := setAt s.locks index true }
  { s1 with delayCounts := setAt s1.delayCounts index (wadd (s1.delayCounts index) 1) }

/-! ## Concrete values for worked instances -/

/-- A configuration with the defaults the specification suggests: pages of 4096 bytes,
`MAX_DELAY_COUNT = 64`, and 1024 tracker slots. -/
def exampleConfig : Config := { PAGE_SIZE := 4096, MAX_DELAY_COUNT := 64, trackerSlots := 1024 }

/-- A freshly constructed Central Cache on a zeroed heap, at clock reading 0. -/
def emptyCache : CentralCache := CentralCache.init (fun _ => 0) (fun _ => ⟨0, 0, 0, 0⟩) 0

/-- A Central Cache whose class 1023 (blocks of 8192 bytes) holds the two free blocks
`1056768 → 1064960` of the span at `1048576`, tracked in slot 0 with two free blocks. -/
def hitExample : CentralCache :=
  { emptyCache with
    mem := fun a => if a = 1056768 then 1064960 else 0
    centralFreeList := fun i => if i = 1023 then 1056768 else 0
    spanTrackers := fun i => if i = 0 then ⟨1048576, 8, 4, 2⟩ else ⟨0, 0, 0, 0⟩
    spanCount := 1 }

/-- Sum of `free_count` over the registered trackers. -/
def trackedFreeCount (s : CentralCache) : Nat :=
  ((List.range s.spanCount).map fun i => (s.spanTrackers i).freeCount).sum

/-- A run from the empty cache, with pages of 4096 bytes: `FetchRange(2047)` misses, the
Page Layer answers with the span at `1048576` (two blocks of 16384 bytes) and the first
block is returned; one second later that block is given back with
`ReturnRange(block, 16384, 2047)`, which runs the delayed-return procedure. -/
def accountingRun : Option (Nat × CentralCache) :=
  (FetchRange exampleConfig (fun _ => 1048576) 2047 emptyCache).bind fun r =>
    (ReturnRange exampleConfig 1000000000 1000000000 4 r.1 16384 2047 r.2).map fun s =>
      (r.1, s)

/-! ## Runs from the empty cache

A run is a sequence of `FetchRange` and `ReturnRange` calls; it carries the pointers
fetched so far, in order, and the state. -/

/-- Continue a run with `FetchRange index`, the Page Layer answering `allocateSpan`. -/
def thenFetch (cfg : Config) (allocateSpan : Nat → Nat) (index : Nat)
    (run : Option (List Nat × CentralCache)) : Option (List Nat × CentralCache) :=
  run.bind fun r =>
    (FetchRange cfg allocateSpan index r.2).map fun q => (r.1 ++ [q.1], q.2)

/-- Continue a run with `ReturnRange start size index` at clock reading `now`. -/
def thenReturn (cfg : Config) (now : Int) (fuel start size index : Nat)
    (run : Option (List Nat × CentralCache)) : Option (List Nat × CentralCache) :=
  run.bind fun r =>
    (ReturnRange cfg now now fuel start size index r.2).map fun s => (r.1, s)

/-- The empty run, with pages of 4096 bytes. -/
def startRun : Option (List Nat × CentralCache) := some ([], emptyCache)

/-- Both blocks of the span at `1048576` of class 2047 (blocks of 16384 bytes, two per
span) are fetched. -/
def bothFetchedRun : Option (List Nat × CentralCache) :=
  thenFetch exampleConfig (fun _ => 0) 2047
    (thenFetch exampleConfig (fun _ => 1048576) 2047 startRun)

/-- After `bothFetchedRun`: the first block is returned one second after construction,
which runs a delayed-return pass; the second block is returned a second later, which runs
another pass. -/
def spanReleaseRun : Option (List Nat × CentralCache) :=
  thenReturn exampleConfig 2000000000 4 1064960 16384 2047
    (thenReturn exampleConfig 1000000000 4 1048576 16384 2047 bothFetchedRun)

/-- After `bothFetchedRun`: the second block is returned at once (no pass runs) and
fetched again. -/
def underflowRun : Option (List Nat × CentralCache) :=
  thenFetch exampleConfig (fun _ => 0) 2047
    (thenReturn exampleConfig 0 4 1064960 16384 2047 bothFetchedRun)

/-- After `bothFetchedRun`: a second span, at `2097152`, is obtained and both its blocks
are fetched; the two blocks of the second span are returned at once (no pass runs). -/
def twoSpansRun : Option (List Nat × CentralCache) :=
  thenReturn exampleConfig 0 4 2113536 16384 2047
    (thenReturn exampleConfig 0 4 2097152 16384 2047
      (thenFetch exampleConfig (fun _ => 0) 2047
        (thenFetch exampleConfig (fun _ => 2097152) 2047 bothFetchedRun)))

/-- After `twoSpansRun`: the first block of the first span is returned one second after
construction, which runs a delayed-return pass; the pass releases the second span. -/
def spliceRun : Option (List Nat × CentralCache) :=
  thenReturn exampleConfig 1000000000 4 1048576 16384 2047 twoSpansRun

/-- After `bothFetchedRun`: the first block is returned at once (no pass runs), the second
one a second later, which runs a delayed-return pass; the pass releases the span. -/
def releasedRun : Option (List Nat × CentralCache) :=
  thenReturn exampleConfig 1000000000 4 1064960 16384 2047
    (thenReturn exampleConfig 0 4 1048576 16384 2047 bothFetchedRun)

/-- After `releasedRun`: the class misses again and the Page Layer hands out the released
range `1048576` for a new span. -/
def reusedRun : Option (List Nat × CentralCache) :=
  thenFetch exampleConfig (fun _ => 1048576) 2047 releasedRun

/-- The registered part of the tracker array of `s1` extends that of `s`: no slot was
retired, and the ranges of the slots registered in `s` are as they were. -/
def TrackersKept (s s1 : CentralCache) : Prop :=
  s.spanCount ≤ s1.spanCount ∧
  ∀ j, j < s.spanCount →
    (s1.spanTrackers j).spanAddr = (s.spanTrackers j).spanAddr ∧
    (s1.spanTrackers j).numPages = (s.spanTrackers j).numPages

/-- A Central Cache in which the span at `1048576` of class 2047 (two blocks) is tracked in
slot 0 with `free_count` 0, its first block is in the class list and its second block is
held by a caller. -/
def releaseExample : CentralCache :=
  { emptyCache with
    centralFreeList := fun i => if i = 2047 then 1048576 else 0
    spanTrackers := fun i => if i = 0 then ⟨1048576, 8, 2, 0⟩ else ⟨0, 0, 0, 0⟩
    spanCount := 1 }

/-- A freshly constructed Central Cache on a heap that was used before: every word holds
`12345`. -/
def dirtyCache : CentralCache := CentralCache.init (fun _ => 12345) (fun _ => ⟨0, 0, 0, 0⟩) 0

/-- A run of `k` misses from the empty cache, with pages of 4096 bytes: `FetchRange` is
called once on each of the classes `0 … k - 1`, and the Page Layer answers the request
number `i` with the span of 8 pages at `1048576 + i * 32768`. -/
def fillRun : Nat → Option CentralCache
  | 0 => some emptyCache
  | k + 1 =>
    (fillRun k).bind fun s =>
      (FetchRange exampleConfig (fun _ => 1048576 + k * 32768) k s).map Prod.snd

/-- A Central Cache with empty class lists whose tracker store of 1024 slots is full. -/
def fullExample : CentralCache := { emptyCache with spanCount := 1024 }

/-! ## Wrapping arithmetic -/

theorem wadd_eq {a b : Nat} (h : a + b < SIZE_T_RANGE) : wadd a b = a + b :=
  Nat.mod_eq_of_lt h

theorem wmul_eq {a b : Nat} (h : a * b < SIZE_T_RANGE) : wmul a b = a * b :=
  Nat.mod_eq_of_lt h

theorem wsub_eq {a b : Nat} (hb : b ≤ a) (ha : a < SIZE_T_RANGE) : wsub a b = a - b := by
  unfold wsub SIZE_T_RANGE at *
  have : b % 2 ^ 64 = b := Nat.mod_eq_of_lt (by omega)
  rw [this]
  omega

theorem wsub_zero_one : wsub 0 1 = SIZE_T_RANGE - 1 := by decide

theorem land_align_mask (x : Nat) (hx : x < SIZE_T_RANGE) :
    x &&& wnot (wsub ALIGNMENT 1) = 8 * (x / 8) := by
  have hm : wnot (wsub ALIGNMENT 1) = 2 ^ 3 * (2 ^ 61 - 1) := by decide
  rw [hm]
  apply Nat.eq_of_testBit_eq
  intro i
  have h8 : (8 : Nat) = 2 ^ 3 := by norm_num
  rw [Nat.testBit_and, h8, Nat.testBit_mul_pow_two, Nat.testBit_mul_pow_two,
    Nat.testBit_two_pow_sub_one, ← h8]
  by_cases h3 : 3 ≤ i
  · by_cases h64 : i < 64
    · have : i - 3 < 61 := by omega
      have e : x / 8 = x >>> 3 := by rw [Nat.shiftRight_eq_div_pow]
      rw [e, Nat.testBit_shiftRight]
      have : 3 + (i - 3) = i := by omega
      simp [*]
    · have hlt : x < 2 ^ i :=
        lt_of_lt_of_le hx (Nat.pow_le_pow_right (by norm_num) (by omega))
      have hlt2 : x / 8 < 2 ^ (i - 3) := by
        rw [Nat.div_lt_iff_lt_mul (by norm_num)]
        have : 2 ^ (i - 3) * 8 = 2 ^ i := by
          rw [h8, ← pow_add]; congr 1; omega
        omega
      simp [Nat.testBit_lt_two_pow hlt, Nat.testBit_lt_two_pow hlt2]
  · simp [h3]

theorem RoundUp_eq (bytes : Nat) (h : bytes + 7 < SIZE_T_RANGE) :
    RoundUp bytes = 8 * ((bytes + 7) / 8) := by
  unfold RoundUp
  have e : wadd bytes (wsub ALIGNMENT 1) = bytes + 7 := by
    have : wsub ALIGNMENT 1 = 7 := by decide
    rw [this, wadd_eq h]
  rw [e, land_align_mask _ h]


theorem GetIndex_eq (bytes : Nat) (h : bytes + 7 < SIZE_T_RANGE) :
    GetIndex bytes = (max bytes 8 + 7) / 8 - 1 := by
  unfold GetIndex
  have e7 : wsub 8 1 = 7 := by decide
  have hA : ALIGNMENT = 8 := rfl
  simp only [hA, e7]
  have hm : max bytes 8 + 7 < SIZE_T_RANGE := by
    unfold SIZE_T_RANGE at *; omega
  rw [wadd_eq hm, wsub_eq (by omega) (by unfold SIZE_T_RANGE at *; omega)]

theorem blockSize_eq (index : Nat) (h : index < FREE_LIST_SIZE) :
    blockSize index = (index + 1) * 8 := by
  have hF : FREE_LIST_SIZE = 32768 := by decide
  unfold blockSize
  rw [wadd_eq (by unfold SIZE_T_RANGE; omega), wmul_eq (by unfold SIZE_T_RANGE ALIGNMENT; omega)]
  rfl

/-- C1 (as stated it fails): the request `s = 0` lies in the managed range, its class has
blocks of 8 bytes, and `RoundUp 0` is 0. -/
theorem size_class_honesty_fails_at_zero :
    0 ≤ MAX_BYTES ∧ blockSize (GetIndex 0) = 8 ∧ RoundUp 0 = 0 ∧
      blockSize (GetIndex 0) ≠ RoundUp 0 := by
  decide

/-- C1 (amended): for every requested size `s` with `1 ≤ s ≤ MAX_BYTES` the block size of
the class chosen for it, `(GetIndex s + 1) * ALIGNMENT`, equals `RoundUp s`; in the whole
managed range it equals `RoundUp (max s ALIGNMENT)`, which for `s = 0` is `ALIGNMENT`. -/
theorem size_class_honesty (s : Nat) (hs : s ≤ MAX_BYTES) :
    blockSize (GetIndex s) = RoundUp (max s ALIGNMENT) ∧
      (1 ≤ s → blockSize (GetIndex s) = RoundUp s) ∧
      (s = 0 → blockSize (GetIndex s) = ALIGNMENT) := by
  have hM : MAX_BYTES = 262144 := by decide
  have hF : FREE_LIST_SIZE = 32768 := by decide
  have hA : ALIGNMENT = 8 := rfl
  have h1 : s + 7 < SIZE_T_RANGE := by unfold SIZE_T_RANGE; omega
  have h2 : max s 8 + 7 < SIZE_T_RANGE := by unfold SIZE_T_RANGE; omega
  have hi : GetIndex s < FREE_LIST_SIZE := by rw [GetIndex_eq s h1]; omega
  rw [blockSize_eq _ hi, GetIndex_eq s h1, hA, RoundUp_eq _ h2]
  refine ⟨by omega, fun h => ?_, fun h => by subst h; decide⟩
  rw [RoundUp_eq s h1]
  omega

theorem size_class_honesty_witness :
    13 ≤ MAX_BYTES ∧ (blockSize (GetIndex 13) = RoundUp (max 13 ALIGNMENT) ∧
      (1 ≤ 13 → blockSize (GetIndex 13) = RoundUp 13) ∧
      (13 = 0 → blockSize (GetIndex 13) = ALIGNMENT)) :=
  ⟨by decide, size_class_honesty 13 (by decide)⟩

/-- C2: for every `size_t` value `bytes`, `GetIndex bytes < FREE_LIST_SIZE` exactly when
`bytes ≤ MAX_BYTES` (wrap-around included), and for every `index ≥ FREE_LIST_SIZE`
`FetchRange index` returns null and leaves the whole state as it was. -/
theorem dispatch_rule (bytes index : Nat) (cfg : Config) (allocateSpan : Nat → Nat)
    (s : CentralCache) (hb : bytes < SIZE_T_RANGE) (hi : FREE_LIST_SIZE ≤ index) :
    (GetIndex bytes < FREE_LIST_SIZE ↔ bytes ≤ MAX_BYTES) ∧
      FetchRange cfg allocateSpan index s = some (0, s) := by
  refine ⟨?_, by simp [FetchRange, hi]⟩
  have hM : MAX_BYTES = 262144 := by decide
  have hF : FREE_LIST_SIZE = 32768 := by decide
  by_cases h : bytes + 7 < SIZE_T_RANGE
  · rw [GetIndex_eq bytes h]; omega
  · -- the addition wraps: the quotient is 0 and the subtraction wraps to `2 ^ 64 - 1`
    have e7 : wsub 8 1 = 7 := by decide
    have hA : ALIGNMENT = 8 := rfl
    have hmax : max bytes 8 = bytes := by
      unfold SIZE_T_RANGE at *; omega
    have hq : wadd bytes 7 / 8 = 0 := by
      unfold wadd SIZE_T_RANGE at *; omega
    have : GetIndex bytes = SIZE_T_RANGE - 1 := by
      unfold GetIndex
      simp only [hA, hmax, e7, hq]
      exact wsub_zero_one
    rw [this]
    unfold SIZE_T_RANGE at *
    omega

theorem dispatch_rule_witness :
    2 ^ 64 - 1 < SIZE_T_RANGE ∧ FREE_LIST_SIZE ≤ 32768 ∧
      ((GetIndex (2 ^ 64 - 1) < FREE_LIST_SIZE ↔ 2 ^ 64 - 1 ≤ MAX_BYTES) ∧
        FetchRange ⟨4096, 48, 1024⟩ (fun _ => 1048576) 32768
          (CentralCache.init (fun _ => 0) (fun _ => ⟨0, 0, 0, 0⟩) 0) =
          some (0, CentralCache.init (fun _ => 0) (fun _ => ⟨0, 0, 0, 0⟩) 0)) :=
  ⟨by decide, by decide, dispatch_rule _ _ _ _ _ (by decide) (by decide)⟩

/-- C3: when `bytes + (ALIGNMENT - 1)` does not overflow, `RoundUp bytes` is the smallest
multiple of `ALIGNMENT` that is at least `bytes`: it is a multiple of 8, lies in
`[bytes, bytes + 8)`, is below every other such multiple, and `RoundUp` is idempotent. -/
theorem RoundUp_least_multiple (bytes : Nat) (h : bytes + (ALIGNMENT - 1) < SIZE_T_RANGE) :
    RoundUp bytes % ALIGNMENT = 0 ∧ bytes ≤ RoundUp bytes ∧
      RoundUp bytes < bytes + ALIGNMENT ∧
      (∀ m, m % ALIGNMENT = 0 → bytes ≤ m → RoundUp bytes ≤ m) ∧
      RoundUp (RoundUp bytes) = RoundUp bytes := by
  have hA : ALIGNMENT = 8 := rfl
  rw [hA] at h ⊢
  have h7 : bytes + 7 < SIZE_T_RANGE := h
  have e := RoundUp_eq bytes h7
  have h2 : RoundUp bytes + 7 < SIZE_T_RANGE := by
    rw [e]; unfold SIZE_T_RANGE at *; omega
  have e2 := RoundUp_eq (RoundUp bytes) h2
  refine ⟨by omega, by omega, by omega, fun m hm hle => by omega, by omega⟩

theorem RoundUp_least_multiple_witness :
    13 + (ALIGNMENT - 1) < SIZE_T_RANGE ∧ (RoundUp 13 % ALIGNMENT = 0 ∧ 13 ≤ RoundUp 13 ∧
      RoundUp 13 < 13 + ALIGNMENT ∧
      (∀ m, m % ALIGNMENT = 0 → 13 ≤ m → RoundUp 13 ≤ m) ∧
      RoundUp (RoundUp 13) = RoundUp 13) :=
  ⟨by decide, RoundUp_least_multiple 13 (by decide)⟩


/-! ## Heap and array updates -/

@[simp] theorem Heap.write_same (m : Heap) (a v : Nat) : m.write a v a = v := by
  simp [Heap.write]

theorem Heap.write_other (m : Heap) {a x : Nat} (v : Nat) (h : x ≠ a) : m.write a v x = m x := by
  simp [Heap.write, h]

@[simp] theorem setAt_same {α : Type} (f : Nat → α) (i : Nat) (v : α) : setAt f i v i = v := by
  simp [setAt]

theorem setAt_other {α : Type} (f : Nat → α) {i x : Nat} (v : α) (h : x ≠ i) :
    setAt f i v x = f x := by
  simp [setAt, h]

/-! ## The carving loop -/

theorem mul_lt_of_lt (size : Nat) {a b : Nat} (h : a < b) :
    a * size + size ≤ b * size := by
  have : (a + 1) * size ≤ b * size := Nat.mul_le_mul_right size h
  rw [Nat.add_mul, Nat.one_mul] at this
  exact this

theorem blockAddr_eq {start size j : Nat}
    (hj : start + j * size < SIZE_T_RANGE) : wadd start (wmul j size) = start + j * size := by
  rw [wmul_eq (by omega), wadd_eq hj]

theorem prevAddr_eq {start size j : Nat} (hsz : 0 < size) (h1 : 1 ≤ j)
    (hj : start + j * size < SIZE_T_RANGE) :
    wadd start (wmul (wsub j 1) size) = start + (j - 1) * size := by
  have hle : j ≤ j * size := Nat.le_mul_of_pos_right j hsz
  have hlt := mul_lt_of_lt size (show j - 1 < j by omega)
  rw [wsub_eq h1 (by omega), wmul_eq (by omega), wadd_eq (by omega)]

/-- The carving loop leaves alone every word that is not the first word of one of the
blocks `j - 1` with `j` in `[i, i + n)`. -/
theorem carveLoop_other (start size : Nat) (hsz : 0 < size) :
    ∀ (n i : Nat) (m : Heap) (a : Nat), 1 ≤ i →
      (∀ j, j < i + n → start + j * size < SIZE_T_RANGE) →
      (∀ j, i ≤ j → j < i + n → a ≠ start + (j - 1) * size) →
        carveLoop start size n i m a = m a := by
  intro n
  induction n with
  | zero => intro i m a _ _ _; rfl
  | succ n ih =>
    intro i m a hi hb ha
    rw [carveLoop, ih (i + 1) _ a (by omega) (fun j hj => hb j (by omega))
      (fun j h1 h2 => ha j (by omega) (by omega))]
    rw [prevAddr_eq hsz hi (hb i (by omega))]
    exact Heap.write_other _ _ (ha i (le_refl _) (by omega))

/-- Iterations `i ≥ 1` of the carving loop store the address of block `j` in the first
word of block `j - 1`, for every `j` in `[i, i + n)`. -/
theorem carveLoop_link (start size : Nat) (hsz : 0 < size) :
    ∀ (n i : Nat) (m : Heap), 1 ≤ i →
      (∀ j, j < i + n → start + j * size < SIZE_T_RANGE) →
      ∀ j, i ≤ j → j < i + n →
        carveLoop start size n i m (start + (j - 1) * size) = start + j * size := by
  intro n
  induction n with
  | zero => intro i m _ _ j h1 h2; omega
  | succ n ih =>
    intro i m hi hb j h1 h2
    rw [carveLoop]
    by_cases hj : j = i
    · subst hj
      rw [carveLoop_other start size hsz n (j + 1) _ _ (by omega) (fun k hk => hb k (by omega))]
      · rw [prevAddr_eq hsz hi (hb j (by omega)), blockAddr_eq (hb j (by omega))]
        exact Heap.write_same _ _ _
      · intro k hk1 hk2
        have := mul_lt_of_lt size (show j - 1 < k - 1 by omega)
        omega
    · exact ih (i + 1) _ (by omega) (fun k hk => hb k (by omega)) j (by omega) (by omega)

/-- A heap in which each of the blocks `k … k + cnt - 1` links to the next one and the
last one holds null contains the list of these blocks. -/
theorem IsList_spanBlocks (m : Heap) (start size : Nat) (hs : start ≠ 0) :
    ∀ (cnt k : Nat),
      (∀ j, k ≤ j → j + 1 < k + cnt → m (start + j * size) = start + (j + 1) * size) →
      (0 < cnt → m (start + (k + cnt - 1) * size) = 0) →
      IsList m (if cnt = 0 then 0 else start + k * size) (spanBlocks start size k cnt) := by
  intro cnt
  induction cnt with
  | zero => intro k _ _; simp [spanBlocks, IsList]
  | succ cnt ih =>
    intro k hlink hlast
    simp only [spanBlocks, List.range'_succ, List.map_cons, IsList, Nat.succ_ne_zero,
      if_false, true_and]
    refine ⟨by omega, ?_⟩
    have h := ih (k + 1) (fun j h1 h2 => hlink j (by omega) (by omega))
      (fun hc => by
        have := hlast (by omega)
        rwa [show k + 1 + cnt - 1 = k + (cnt + 1) - 1 by omega])
    by_cases hc : cnt = 0
    · subst hc
      have := hlast (by omega)
      simp at this
      simpa [spanBlocks, IsList] using this
    · rw [if_neg hc] at h
      rw [hlink k (le_refl _) (by omega)]
      exact h


/-! ## `FetchRange`: the miss path -/

theorem carvePages_eq_pagesRequested (cfg : Config) (size : Nat) :
    carvePages cfg size = pagesRequested cfg size := rfl

/-- The miss path of `FetchRange`, unfolded. -/
theorem FetchRange_miss (cfg : Config) (allocateSpan : Nat → Nat) (index : Nat)
    (s : CentralCache) (hidx : index < FREE_LIST_SIZE) (hlock : s.locks index = false)
    (hempty : s.centralFreeList index = 0) :
    FetchRange cfg allocateSpan index s =
      if allocateSpan (pagesRequested cfg (blockSize index)) = 0 then
        some (0, unlock index
          { s with
            locks := setAt s.locks index true
            allocLog := pagesRequested cfg (blockSize index) :: s.allocLog })
      else
        some (allocateSpan (pagesRequested cfg (blockSize index)),
          unlock index (carveSpan cfg index (blockSize index)
            (allocateSpan (pagesRequested cfg (blockSize index)))
            { s with
              locks := setAt s.locks index true
              allocLog := pagesRequested cfg (blockSize index) :: s.allocLog })) := by
  unfold FetchRange FetchFromPageCache
  simp [Nat.not_le.mpr hidx, hlock, hempty]

theorem lastAddr_eq {start size n : Nat} (h1 : 1 ≤ n) (hn : n < SIZE_T_RANGE)
    (hb : start + (n - 1) * size < SIZE_T_RANGE) :
    wadd start (wmul (wsub n 1) size) = start + (n - 1) * size := by
  rw [wsub_eq h1 hn, wmul_eq (by omega), wadd_eq hb]

/-- The heap after carving a span of `n ≥ 2` blocks: block 0 is detached, blocks
`1 … n - 1` are linked in ascending order and the last link is null. -/
theorem carve_heap (m : Heap) (start size n : Nat) (hsz : 0 < size) (hn : 2 ≤ n)
    (hs : start ≠ 0) (hb : start + n * size ≤ SIZE_T_RANGE) :
    (((carveLoop start size n 0 m).write (wadd start (wmul (wsub n 1) size)) 0) start
        = start + size) ∧
      (∀ j, 1 ≤ j → j + 1 < n →
        (((carveLoop start size n 0 m).write (wadd start (wmul (wsub n 1) size)) 0).write
          start 0) (start + j * size) = start + (j + 1) * size) ∧
      (((carveLoop start size n 0 m).write (wadd start (wmul (wsub n 1) size)) 0).write
          start 0) (start + (n - 1) * size) = 0 := by
  have hbj : ∀ j, j < n → start + j * size < SIZE_T_RANGE := by
    intro j hj
    have := mul_lt_of_lt size hj
    omega
  have hnlt : n < SIZE_T_RANGE := by
    have : n ≤ n * size := Nat.le_mul_of_pos_right n hsz
    omega
  have hlast : wadd start (wmul (wsub n 1) size) = start + (n - 1) * size :=
    lastAddr_eq (by omega) hnlt (hbj (n - 1) (by omega))
  rw [hlast]
  obtain ⟨k, rfl⟩ : ∃ k, n = k + 1 := ⟨n - 1, by omega⟩
  have hloop : ∀ j, 1 ≤ j → j < k + 1 →
      carveLoop start size (k + 1) 0 m (start + (j - 1) * size) = start + j * size := by
    intro j h1 h2
    rw [carveLoop]
    exact carveLoop_link start size hsz k 1 _ (le_refl _)
      (fun i hi => hbj i (by omega)) j h1 (by omega)
  have hpos : ∀ j, 1 ≤ j → start + j * size ≠ start := by
    intro j hj
    have : size ≤ j * size := Nat.le_mul_of_pos_left size hj
    omega
  have hne : ∀ j, j < k → start + j * size ≠ start + (k + 1 - 1) * size := by
    intro j hj
    have := mul_lt_of_lt size (show j < k + 1 - 1 by omega)
    omega
  refine ⟨?_, ?_, ?_⟩
  · have h0 := hloop 1 (le_refl _) (by omega)
    simp only [Nat.sub_self, Nat.zero_mul, Nat.add_zero, Nat.one_mul] at h0
    rw [Heap.write_other _ _ (by
      have := hne 0 (by omega)
      simpa using this), h0]
  · intro j h1 h2
    rw [Heap.write_other _ _ (hpos j h1), Heap.write_other _ _ (hne j (by omega))]
    have := hloop (j + 1) (by omega) (by omega)
    simpa using this
  · rw [Heap.write_other _ _ (hpos _ (by omega))]
    exact Heap.write_same _ _ _

@[simp] theorem unlock_mem (i : Nat) (s : CentralCache) : (unlock i s).mem = s.mem := rfl
@[simp] theorem unlock_centralFreeList (i : Nat) (s : CentralCache) :
    (unlock i s).centralFreeList = s.centralFreeList := rfl
@[simp] theorem unlock_spanTrackers (i : Nat) (s : CentralCache) :
    (unlock i s).spanTrackers = s.spanTrackers := rfl
@[simp] theorem unlock_spanCount (i : Nat) (s : CentralCache) :
    (unlock i s).spanCount = s.spanCount := rfl
@[simp] theorem unlock_delayCounts (i : Nat) (s : CentralCache) :
    (unlock i s).delayCounts = s.delayCounts := rfl
@[simp] theorem unlock_lastReturnTimes (i : Nat) (s : CentralCache) :
    (unlock i s).lastReturnTimes = s.lastReturnTimes := rfl
@[simp] theorem unlock_allocLog (i : Nat) (s : CentralCache) :
    (unlock i s).allocLog = s.allocLog := rfl
@[simp] theorem unlock_deallocLog (i : Nat) (s : CentralCache) :
    (unlock i s).deallocLog = s.deallocLog := rfl
@[simp] theorem unlock_locks_same (i : Nat) (s : CentralCache) :
    (unlock i s).locks i = false := by simp [unlock]

theorem unlock_locks_other (s : CentralCache) {i j : Nat} (h : j ≠ i) :
    (unlock i s).locks j = s.locks j := by simp [unlock, setAt, h]

/-- Locking and unlocking a free lock restores the lock array. -/
theorem setAt_lock_unlock (locks : Nat → Bool) (i : Nat) (h : locks i = false) :
    setAt (setAt locks i true) i false = locks := by
  funext x
  by_cases hx : x = i
  · subst hx; simp [h]
  · simp [setAt, hx]

/-- Block count of a span, in unbounded arithmetic, under the condition that the span
lies in the address space. -/
theorem blockNum_eq (cfg : Config) (size start : Nat) (hs : start ≠ 0)
    (hspan : start + carvePages cfg size * cfg.PAGE_SIZE ≤ SIZE_T_RANGE) :
    wmul (carvePages cfg size) cfg.PAGE_SIZE / size =
      carvePages cfg size * cfg.PAGE_SIZE / size := by
  rw [wmul_eq (by omega)]

/-- C4: on a miss (empty class list, free lock) where the Page Layer answers with the span
base `start`, `FetchRange index` returns `start`; afterwards the class free list is exactly
the blocks `start + k * size` for `k = 1 … block_count - 1`, in ascending order and
null-terminated, with `size = (index + 1) * ALIGNMENT` and
`block_count = (num_pages * PAGE_SIZE) / size`; these blocks and the returned block are
pairwise disjoint, lie inside the span, and are multiples of `ALIGNMENT` when `start` is. -/
theorem carve_on_miss (cfg : Config) (allocateSpan : Nat → Nat) (index start : Nat)
    (s : CentralCache) (hidx : index < FREE_LIST_SIZE) (hlock : s.locks index = false)
    (hempty : s.centralFreeList index = 0) (_hpage : 0 < cfg.PAGE_SIZE)
    (halloc : allocateSpan (pagesRequested cfg (blockSize index)) = start)
    (hstart : start ≠ 0)
    (hspan : start + carvePages cfg (blockSize index) * cfg.PAGE_SIZE ≤ SIZE_T_RANGE) :
    blockSize index = (index + 1) * ALIGNMENT ∧
    carvePages cfg (blockSize index) = pagesRequested cfg (blockSize index) ∧
    ∃ s1, FetchRange cfg allocateSpan index s = some (start, s1) ∧
      IsList s1.mem (s1.centralFreeList index)
        (spanBlocks start (blockSize index) 1
          (carvePages cfg (blockSize index) * cfg.PAGE_SIZE / blockSize index - 1)) ∧
      (spanBlocks start (blockSize index) 1
          (carvePages cfg (blockSize index) * cfg.PAGE_SIZE / blockSize index - 1)).Pairwise
        (· < ·) ∧
      (∀ j k, j < k → k < carvePages cfg (blockSize index) * cfg.PAGE_SIZE / blockSize index →
        start + j * blockSize index + blockSize index ≤ start + k * blockSize index) ∧
      (∀ k, k < carvePages cfg (blockSize index) * cfg.PAGE_SIZE / blockSize index →
        start ≤ start + k * blockSize index ∧
        start + k * blockSize index + blockSize index ≤
          start + carvePages cfg (blockSize index) * cfg.PAGE_SIZE) ∧
      (start % ALIGNMENT = 0 → ∀ k, (start + k * blockSize index) % ALIGNMENT = 0) := by
  have hsize := blockSize_eq index hidx
  have hsz : 0 < blockSize index := by omega
  refine ⟨hsize, rfl, ?_⟩
  generalize hn : carvePages cfg (blockSize index) * cfg.PAGE_SIZE / blockSize index = n
  have hnsz : n * blockSize index ≤ carvePages cfg (blockSize index) * cfg.PAGE_SIZE := by
    rw [← hn]; exact Nat.div_mul_le_self _ _
  rw [FetchRange_miss cfg allocateSpan index s hidx hlock hempty, halloc, if_neg hstart]
  refine ⟨_, rfl, ?_, ?_, ?_, ?_, ?_⟩
  · simp only [unlock_mem, unlock_centralFreeList]
    unfold carveSpan
    simp only [blockNum_eq cfg (blockSize index) start hstart hspan, hn]
    by_cases h1 : 1 < n
    · simp only [if_pos h1]
      obtain ⟨hnext, hlink, hlast⟩ :=
        carve_heap s.mem start (blockSize index) n hsz h1 hstart (by omega)
      simp only [setAt_same, hnext]
      have h := IsList_spanBlocks
        (((carveLoop start (blockSize index) n 0 s.mem).write
          (wadd start (wmul (wsub n 1) (blockSize index))) 0).write start 0)
        start (blockSize index) hstart (n - 1) 1
        (fun j hj1 hj2 => hlink j hj1 (by omega))
        (fun _ => by
          rw [show 1 + (n - 1) - 1 = n - 1 by omega]
          exact hlast)
      rw [if_neg (by omega)] at h
      simpa using h
    · simp only [if_neg h1]
      have : n - 1 = 0 := by omega
      simp [this, spanBlocks, IsList, hempty]
  · unfold spanBlocks
    rw [List.pairwise_map]
    refine List.Pairwise.imp ?_ (List.pairwise_lt_range' 1 (n - 1))
    intro a b hab
    have := mul_lt_of_lt (blockSize index) hab
    omega
  · intro j k hjk _
    have := mul_lt_of_lt (blockSize index) hjk
    omega
  · intro k hk
    have := mul_lt_of_lt (blockSize index) hk
    omega
  · intro ha k
    rw [hsize]
    have hA : ALIGNMENT = 8 := rfl
    rw [hA] at ha ⊢
    have : k * ((index + 1) * 8) = 8 * (k * (index + 1)) := by ring
    omega

theorem carve_on_miss_witness :
    (1023 < FREE_LIST_SIZE ∧ emptyCache.locks 1023 = false ∧
      emptyCache.centralFreeList 1023 = 0 ∧ 0 < exampleConfig.PAGE_SIZE ∧
      1048576 + carvePages exampleConfig (blockSize 1023) * exampleConfig.PAGE_SIZE ≤
        SIZE_T_RANGE) ∧
    ∃ s1, FetchRange exampleConfig (fun _ => 1048576) 1023 emptyCache = some (1048576, s1) ∧
      IsList s1.mem (s1.centralFreeList 1023) [1056768, 1064960, 1073152] := by
  refine ⟨by decide, ?_⟩
  obtain ⟨_, _, s1, h1, h2, _⟩ :=
    carve_on_miss exampleConfig (fun _ => 1048576) 1023 1048576 emptyCache
      (by decide) rfl rfl (by decide) rfl (by decide) (by decide)
  have e : spanBlocks 1048576 (blockSize 1023) 1
      (carvePages exampleConfig (blockSize 1023) * exampleConfig.PAGE_SIZE / blockSize 1023 - 1)
      = [1056768, 1064960, 1073152] := by decide
  rw [e] at h2
  exact ⟨s1, h1, h2⟩


/-- C5 (as stated it fails): class 4095 has blocks of 32768 bytes, so a span of 8 pages of
4096 bytes yields a single block; the miss returns the span base and registers no
tracker: `spanCount` stays 0 and slot 0 is untouched. -/
theorem register_tracker_fails_single_block :
    4095 < FREE_LIST_SIZE ∧ emptyCache.centralFreeList 4095 = 0 ∧
      carvePages exampleConfig (blockSize 4095) * exampleConfig.PAGE_SIZE / blockSize 4095 = 1 ∧
      (FetchRange exampleConfig (fun _ => 1048576) 4095 emptyCache).map
          (fun r => (r.1, r.2.spanCount, r.2.spanTrackers 0)) =
        some (1048576, 0, ⟨0, 0, 0, 0⟩) := by
  decide

/-- C5 (amended): on a miss where the Page Layer returns a span, if the span yields at
least two blocks and a tracker slot is free (`spanCount` below the capacity), `FetchRange`
registers exactly one new tracker, in slot `spanCount`, with `span_addr` the span base,
`num_pages` the pages requested, `block_count = (num_pages * PAGE_SIZE) / block_size` and
`free_count = block_count - 1`, and leaves the other slots alone; if the span yields a
single block, no tracker is registered and `spanCount` is unchanged. -/
theorem register_tracker_on_miss (cfg : Config) (allocateSpan : Nat → Nat)
    (index start : Nat) (s : CentralCache) (hidx : index < FREE_LIST_SIZE)
    (hlock : s.locks index = false) (hempty : s.centralFreeList index = 0)
    (_hpage : 0 < cfg.PAGE_SIZE)
    (halloc : allocateSpan (pagesRequested cfg (blockSize index)) = start)
    (hstart : start ≠ 0)
    (hspan : start + carvePages cfg (blockSize index) * cfg.PAGE_SIZE ≤ SIZE_T_RANGE)
    (hslots : cfg.trackerSlots < SIZE_T_RANGE) :
    ∃ s1, FetchRange cfg allocateSpan index s = some (start, s1) ∧
      (2 ≤ pagesRequested cfg (blockSize index) * cfg.PAGE_SIZE / blockSize index →
        s.spanCount < cfg.trackerSlots →
          s1.spanCount = s.spanCount + 1 ∧
          s1.spanTrackers s.spanCount =
            { spanAddr := start
              numPages := pagesRequested cfg (blockSize index)
              blockCount := pagesRequested cfg (blockSize index) * cfg.PAGE_SIZE / blockSize index
              freeCount :=
                pagesRequested cfg (blockSize index) * cfg.PAGE_SIZE / blockSize index - 1 } ∧
          ∀ j, j ≠ s.spanCount → s1.spanTrackers j = s.spanTrackers j) ∧
      (pagesRequested cfg (blockSize index) * cfg.PAGE_SIZE / blockSize index < 2 →
        s1.spanCount = s.spanCount ∧ s1.spanTrackers = s.spanTrackers) := by
  have hsize := blockSize_eq index hidx
  have hsz : 0 < blockSize index := by omega
  rw [← carvePages_eq_pagesRequested] at halloc ⊢
  generalize hn : carvePages cfg (blockSize index) * cfg.PAGE_SIZE / blockSize index = n
  have hnsz : n * blockSize index ≤ carvePages cfg (blockSize index) * cfg.PAGE_SIZE := by
    rw [← hn]; exact Nat.div_mul_le_self _ _
  have hnlt : n < SIZE_T_RANGE := by
    have : n ≤ n * blockSize index := Nat.le_mul_of_pos_right n hsz
    omega
  rw [FetchRange_miss cfg allocateSpan index s hidx hlock hempty,
    ← carvePages_eq_pagesRequested, halloc, if_neg hstart]
  refine ⟨_, rfl, ?_, ?_⟩
  · intro h2 hfree
    simp only [unlock_spanCount, unlock_spanTrackers]
    unfold carveSpan
    simp only [blockNum_eq cfg (blockSize index) start hstart hspan, hn]
    have h1 : 1 < n := by omega
    simp only [if_pos h1, if_pos hfree, setAt_same]
    refine ⟨wadd_eq (by omega), ?_, fun j hj => setAt_other _ _ hj⟩
    rw [wsub_eq (by omega) hnlt]
  · intro h2
    simp only [unlock_spanCount, unlock_spanTrackers]
    unfold carveSpan
    simp only [blockNum_eq cfg (blockSize index) start hstart hspan, hn]
    have h1 : ¬ 1 < n := by omega
    simp [if_neg h1]

theorem register_tracker_on_miss_witness :
    (2047 < FREE_LIST_SIZE ∧ emptyCache.locks 2047 = false ∧
      emptyCache.centralFreeList 2047 = 0 ∧
      2 ≤ pagesRequested exampleConfig (blockSize 2047) * exampleConfig.PAGE_SIZE /
        blockSize 2047 ∧
      emptyCache.spanCount < exampleConfig.trackerSlots) ∧
    ∃ s1, FetchRange exampleConfig (fun _ => 1048576) 2047 emptyCache = some (1048576, s1) ∧
      s1.spanCount = 1 ∧ s1.spanTrackers 0 = ⟨1048576, 8, 2, 1⟩ := by
  refine ⟨by decide, ?_⟩
  obtain ⟨s1, h1, h2, _⟩ :=
    register_tracker_on_miss exampleConfig (fun _ => 1048576) 2047 1048576 emptyCache
      (by decide) rfl rfl (by decide) rfl (by decide) (by decide) (by decide)
  obtain ⟨h3, h4, _⟩ := h2 (by decide) (by decide)
  exact ⟨s1, h1, h3, h4⟩

/-- C7: on a miss where `allocateSpan` returns null, `FetchRange index` returns null,
registers no tracker, leaves every class free list, the heap and the locks as they were
(`lock[index]` released), so that a following `FetchRange index` against a Page Layer
that returns a span `start2` returns `start2`. -/
theorem oom_propagation (cfg : Config) (allocateSpan allocateSpan2 : Nat → Nat)
    (index start2 : Nat) (s : CentralCache) (hidx : index < FREE_LIST_SIZE)
    (hlock : s.locks index = false) (hempty : s.centralFreeList index = 0)
    (_hpage : 0 < cfg.PAGE_SIZE)
    (hnull : allocateSpan (pagesRequested cfg (blockSize index)) = 0)
    (halloc2 : allocateSpan2 (pagesRequested cfg (blockSize index)) = start2)
    (hstart2 : start2 ≠ 0) :
    ∃ s1, FetchRange cfg allocateSpan index s = some (0, s1) ∧
      s1.spanCount = s.spanCount ∧ s1.spanTrackers = s.spanTrackers ∧
      s1.centralFreeList = s.centralFreeList ∧ s1.mem = s.mem ∧
      s1.locks = s.locks ∧ s1.locks index = false ∧
      s1.deallocLog = s.deallocLog ∧
      ∃ s2, FetchRange cfg allocateSpan2 index s1 = some (start2, s2) := by
  rw [FetchRange_miss cfg allocateSpan index s hidx hlock hempty, hnull, if_pos rfl]
  have hl : (unlock index
      { s with
        locks := setAt s.locks index true
        allocLog := pagesRequested cfg (blockSize index) :: s.allocLog }).locks = s.locks :=
    setAt_lock_unlock s.locks index hlock
  refine ⟨_, rfl, rfl, rfl, rfl, rfl, hl, by rw [hl]; exact hlock, rfl, ?_⟩
  have key : ∀ s1 : CentralCache, s1.locks index = false → s1.centralFreeList index = 0 →
      ∃ s2, FetchRange cfg allocateSpan2 index s1 = some (start2, s2) := by
    intro s1 h1 h2
    rw [FetchRange_miss cfg allocateSpan2 index s1 hidx h1 h2, halloc2, if_neg hstart2]
    exact ⟨_, rfl⟩
  exact key _ (by rw [hl]; exact hlock) hempty

theorem oom_propagation_witness :
    (7 < FREE_LIST_SIZE ∧ emptyCache.locks 7 = false ∧ emptyCache.centralFreeList 7 = 0) ∧
    ∃ s1, FetchRange exampleConfig (fun _ => 0) 7 emptyCache = some (0, s1) ∧
      s1.spanCount = 0 ∧ s1.locks 7 = false ∧
      ∃ s2, FetchRange exampleConfig (fun _ => 1048576) 7 s1 = some (1048576, s2) := by
  refine ⟨by decide, ?_⟩
  obtain ⟨s1, h1, h2, _, _, _, _, h3, _, h4⟩ :=
    oom_propagation exampleConfig (fun _ => 0) (fun _ => 1048576) 7 1048576 emptyCache
      (by decide) rfl rfl (by decide) rfl rfl (by decide)
  exact ⟨s1, h1, h2, h3, h4⟩


/-! ## Intrusive lists -/

theorem IsList_nil {m : Heap} {h : Nat} : IsList m h [] ↔ h = 0 := Iff.rfl

theorem IsList_cons {m : Heap} {h b : Nat} {bs : List Nat} :
    IsList m h (b :: bs) ↔ h = b ∧ b ≠ 0 ∧ IsList m (m b) bs := Iff.rfl

/-- A head determines its list. -/
theorem IsList_unique {m : Heap} : ∀ {l1 l2 : List Nat} {h : Nat},
    IsList m h l1 → IsList m h l2 → l1 = l2
  | [], [], _, _, _ => rfl
  | [], b :: bs, h, h1, h2 => by
    rw [IsList_nil] at h1
    obtain ⟨e, hb, _⟩ := h2
    omega
  | b :: bs, [], h, h1, h2 => by
    rw [IsList_nil] at h2
    obtain ⟨e, hb, _⟩ := h1
    omega
  | b :: bs, c :: cs, h, h1, h2 => by
    obtain ⟨e1, _, t1⟩ := h1
    obtain ⟨e2, _, t2⟩ := h2
    have : b = c := by omega
    subst this
    rw [IsList_unique t1 t2]

theorem IsList_ne_zero {m : Heap} : ∀ {l : List Nat} {h : Nat},
    IsList m h l → ∀ b ∈ l, b ≠ 0
  | [], _, _, b, hb => by simp at hb
  | c :: cs, h, hl, b, hb => by
    obtain ⟨_, hc, t⟩ := hl
    rcases List.mem_cons.mp hb with rfl | hb
    · exact hc
    · exact IsList_ne_zero t b hb

/-- The part of a list from one of its blocks on is the list of that block. -/
theorem IsList_suffix {m : Heap} : ∀ {pre : List Nat} {h b : Nat} {post : List Nat},
    IsList m h (pre ++ b :: post) → IsList m b (b :: post)
  | [], h, b, post, hl => by
    obtain ⟨_, hb, t⟩ := hl
    exact ⟨rfl, hb, t⟩
  | c :: cs, h, b, post, hl => by
    obtain ⟨_, _, t⟩ := hl
    exact IsList_suffix t

theorem IsList_head_not_mem_tail {m : Heap} {b : Nat} {bs : List Nat}
    (hl : IsList m b (b :: bs)) : b ∉ bs := by
  intro hb
  obtain ⟨pre, post, e⟩ := List.append_of_mem hb
  have h1 : IsList m b (b :: post) := by
    have : IsList m b ((b :: pre) ++ b :: post) := by
      rw [List.cons_append, ← e]; exact hl
    exact IsList_suffix this
  have := IsList_unique hl h1
  have hlen := congrArg List.length this
  rw [e] at hlen
  simp at hlen
  omega

/-- A list in the heap is acyclic: no block occurs twice. -/
theorem IsList_nodup {m : Heap} : ∀ {l : List Nat} {h : Nat}, IsList m h l → l.Nodup
  | [], _, _ => List.nodup_nil
  | b :: bs, h, hl => by
    obtain ⟨e, hb, t⟩ := hl
    exact List.nodup_cons.mpr ⟨IsList_head_not_mem_tail ⟨rfl, hb, t⟩, IsList_nodup t⟩

/-- A store outside a list leaves the list as it is. -/
theorem IsList_write {m : Heap} (a v : Nat) : ∀ {l : List Nat} {h : Nat},
    a ∉ l → IsList m h l → IsList (m.write a v) h l
  | [], _, _, hl => hl
  | b :: bs, h, ha, hl => by
    obtain ⟨e, hb, t⟩ := hl
    have hab : b ≠ a := fun e => ha (by simp [e])
    refine ⟨e, hb, ?_⟩
    rw [Heap.write_other _ _ hab]
    exact IsList_write a v (fun h => ha (List.mem_cons_of_mem _ h)) t

/-- Two heaps that agree on the blocks of a list hold the same list. -/
theorem IsList_congr {m m2 : Heap} : ∀ {l : List Nat} {h : Nat},
    (∀ b ∈ l, m2 b = m b) → IsList m h l → IsList m2 h l
  | [], _, _, hl => hl
  | b :: bs, h, hag, hl => by
    obtain ⟨e, hb, t⟩ := hl
    refine ⟨e, hb, ?_⟩
    rw [hag b (by simp)]
    exact IsList_congr (fun c hc => hag c (List.mem_cons_of_mem _ hc)) t

/-- Walking a list with enough fuel collects exactly its blocks. -/
theorem listOf_of_IsList {m : Heap} : ∀ {l : List Nat} {h : Nat} (fuel : Nat),
    IsList m h l → l.length ≤ fuel → listOf m fuel h = some l
  | [], h, fuel, hl, _ => by
    rw [IsList_nil] at hl
    cases fuel <;> simp [listOf, hl]
  | b :: bs, h, 0, _, hf => by simp at hf
  | b :: bs, h, fuel + 1, hl, hf => by
    obtain ⟨e, hb, t⟩ := hl
    subst e
    simp only [listOf, if_neg hb]
    rw [listOf_of_IsList fuel t (by simpa using hf)]
    rfl

/-! ## `GetSpanTracker` -/

theorem GetSpanTracker_eq_some (cfg : Config) (s : CentralCache) (p t : Nat) :
    GetSpanTracker cfg s p = some t ↔
      t < s.spanCount ∧
      inSpan cfg (s.spanTrackers t).spanAddr (s.spanTrackers t).numPages p = true ∧
      ∀ j, j < t →
        inSpan cfg (s.spanTrackers j).spanAddr (s.spanTrackers j).numPages p = false := by
  unfold GetSpanTracker
  rw [List.find?_range_eq_some]
  simp only [List.mem_range, Bool.not_eq_eq_eq_not, Bool.not_true]
  tauto

theorem GetSpanTracker_eq_none (cfg : Config) (s : CentralCache) (p : Nat) :
    GetSpanTracker cfg s p = none ↔
      ∀ j, j < s.spanCount →
        inSpan cfg (s.spanTrackers j).spanAddr (s.spanTrackers j).numPages p = false := by
  unfold GetSpanTracker
  rw [List.find?_range_eq_none]
  simp

/-- The lookup reads only the tracker slots and `spanCount_`. -/
theorem GetSpanTracker_congr (cfg : Config) {s1 s2 : CentralCache}
    (ht : s1.spanTrackers = s2.spanTrackers) (hc : s1.spanCount = s2.spanCount) (p : Nat) :
    GetSpanTracker cfg s1 p = GetSpanTracker cfg s2 p := by
  unfold GetSpanTracker
  rw [ht, hc]

/-! ## `FetchRange`: the hit path -/

/-- The hit path of `FetchRange`, unfolded. -/
theorem FetchRange_hit (cfg : Config) (allocateSpan : Nat → Nat) (index : Nat)
    (s : CentralCache) (hidx : index < FREE_LIST_SIZE) (hlock : s.locks index = false)
    (hhead : s.centralFreeList index ≠ 0) :
    FetchRange cfg allocateSpan index s =
      some (s.centralFreeList index,
        unlock index (popHead cfg index (s.centralFreeList index)
          { s with locks := setAt s.locks index true })) := by
  unfold FetchRange
  simp [Nat.not_le.mpr hidx, hlock, hhead]

/-- C6: on a hit (free lock, class list `h :: rest`), `FetchRange index` returns the head
`h`, makes the former link of `h` the class head, stores null in the link word of `h` and
changes no other word, so the class list is `rest`; other class heads are unchanged.  The
first registered tracker whose range contains `h` has its `free_count` decremented by one
in `size_t` arithmetic (by exactly one when it was at least 1) and every other tracker is
unchanged; when no registered tracker contains `h`, no tracker changes. -/
theorem hit_path (cfg : Config) (allocateSpan : Nat → Nat) (index h : Nat)
    (rest : List Nat) (s : CentralCache) (hidx : index < FREE_LIST_SIZE)
    (hlock : s.locks index = false)
    (hl : IsList s.mem (s.centralFreeList index) (h :: rest)) :
    ∃ s1, FetchRange cfg allocateSpan index s = some (h, s1) ∧
      s1.centralFreeList index = s.mem h ∧ s1.mem h = 0 ∧
      (∀ a, a ≠ h → s1.mem a = s.mem a) ∧
      IsList s1.mem (s1.centralFreeList index) rest ∧
      (∀ j, j ≠ index → s1.centralFreeList j = s.centralFreeList j) ∧
      s1.spanCount = s.spanCount ∧ s1.locks = s.locks ∧
      s1.allocLog = s.allocLog ∧ s1.deallocLog = s.deallocLog ∧
      (∀ t, t < s.spanCount →
        inSpan cfg (s.spanTrackers t).spanAddr (s.spanTrackers t).numPages h = true →
        (∀ j, j < t →
          inSpan cfg (s.spanTrackers j).spanAddr (s.spanTrackers j).numPages h = false) →
        s1.spanTrackers t =
            { s.spanTrackers t with freeCount := wsub (s.spanTrackers t).freeCount 1 } ∧
          (1 ≤ (s.spanTrackers t).freeCount → (s.spanTrackers t).freeCount < SIZE_T_RANGE →
            (s1.spanTrackers t).freeCount + 1 = (s.spanTrackers t).freeCount) ∧
          ∀ j, j ≠ t → s1.spanTrackers j = s.spanTrackers j) ∧
      ((∀ j, j < s.spanCount →
          inSpan cfg (s.spanTrackers j).spanAddr (s.spanTrackers j).numPages h = false) →
        s1.spanTrackers = s.spanTrackers) := by
  obtain ⟨hh, hne, ht⟩ := hl
  have hnm : h ∉ rest := IsList_head_not_mem_tail (m := s.mem) ⟨rfl, hne, ht⟩
  rw [FetchRange_hit cfg allocateSpan index s hidx hlock (by rw [hh]; exact hne), hh]
  have hlk : setAt (setAt s.locks index true) index false = s.locks :=
    setAt_lock_unlock s.locks index hlock
  cases hg : GetSpanTracker cfg s h with
  | none =>
    have hg2 : GetSpanTracker cfg
        { s with locks := setAt s.locks index true, mem := s.mem.write h 0,
                 centralFreeList := setAt s.centralFreeList index (s.mem h) } h = none := by
      rw [← hg]; exact GetSpanTracker_congr cfg rfl rfl h
    refine ⟨_, rfl, ?_⟩
    simp only [popHead, hg2, unlock_mem, unlock_centralFreeList, unlock_spanCount,
      unlock_spanTrackers, unlock_allocLog, unlock_deallocLog, setAt_same, Heap.write_same]
    refine ⟨trivial, trivial, fun a ha => Heap.write_other _ _ ha, IsList_write h 0 hnm ht,
      fun j hj => setAt_other _ _ hj, trivial, hlk, trivial, trivial, ?_, fun _ => trivial⟩
    intro t ht1 ht2 ht3
    have := (GetSpanTracker_eq_none cfg s h).mp hg t ht1
    rw [this] at ht2
    cases ht2
  | some t0 =>
    have hg2 : GetSpanTracker cfg
        { s with locks := setAt s.locks index true, mem := s.mem.write h 0,
                 centralFreeList := setAt s.centralFreeList index (s.mem h) } h = some t0 := by
      rw [← hg]; exact GetSpanTracker_congr cfg rfl rfl h
    obtain ⟨h01, h02, h03⟩ := (GetSpanTracker_eq_some cfg s h t0).mp hg
    refine ⟨_, rfl, ?_⟩
    simp only [popHead, hg2, unlock_mem, unlock_centralFreeList, unlock_spanCount,
      unlock_spanTrackers, unlock_allocLog, unlock_deallocLog, setAt_same, Heap.write_same]
    refine ⟨trivial, trivial, fun a ha => Heap.write_other _ _ ha, IsList_write h 0 hnm ht,
      fun j hj => setAt_other _ _ hj, trivial, hlk, trivial, trivial, ?_, ?_⟩
    · intro t ht1 ht2 ht3
      have htt : t = t0 := by
        rcases Nat.lt_trichotomy t t0 with hlt | heq | hgt
        · rw [h03 t hlt] at ht2; cases ht2
        · exact heq
        · rw [ht3 t0 hgt] at h02; cases h02
      subst htt
      refine ⟨setAt_same _ _ _, ?_, fun j hj => setAt_other _ _ hj⟩
      intro hfc1 hfc2
      rw [setAt_same]
      simp only
      rw [wsub_eq hfc1 hfc2]
      omega
    · intro hnone
      rw [hnone t0 h01] at h02
      cases h02

theorem hit_path_witness :
    (1023 < FREE_LIST_SIZE ∧ hitExample.locks 1023 = false ∧
      IsList hitExample.mem (hitExample.centralFreeList 1023) [1056768, 1064960]) ∧
    ∃ s1, FetchRange exampleConfig (fun _ => 0) 1023 hitExample = some (1056768, s1) ∧
      s1.centralFreeList 1023 = 1064960 ∧ s1.mem 1056768 = 0 ∧
      IsList s1.mem (s1.centralFreeList 1023) [1064960] ∧
      s1.spanTrackers 0 = ⟨1048576, 8, 4, 1⟩ := by
  have hl : IsList hitExample.mem (hitExample.centralFreeList 1023) [1056768, 1064960] :=
    ⟨rfl, by decide, rfl, by decide, rfl⟩
  refine ⟨⟨by decide, rfl, hl⟩, ?_⟩
  obtain ⟨s1, h1, h2, h3, _, h4, _, _, _, _, _, h5, _⟩ :=
    hit_path exampleConfig (fun _ => 0) 1023 1056768 [1064960] hitExample (by decide) rfl hl
  obtain ⟨h6, _, _⟩ := h5 0 (by decide) (by decide) (fun j hj => by omega)
  exact ⟨s1, h1, h2, h3, h4, h6⟩


/-! ## The splice loop of `UpdateSpanFreeCount` -/

/-- The splice loop once a block has been kept (`prev` is set): the blocks of the rest
of the list that lie in the range are unlinked, `newHead` is not assigned any more. -/
theorem spliceLoop_kept (cfg : Config) (spanAddr numPages newHead : Nat) :
    ∀ (rest : List Nat) (fuel : Nat) (m : Heap) (prev current : Nat),
      prev ≠ 0 → IsList m current rest → prev ∉ rest → m prev = current →
      rest.length ≤ fuel →
      ∃ m1, spliceLoop cfg spanAddr numPages fuel m newHead prev current = some (m1, newHead) ∧
        IsList m1 (m1 prev) (rest.filter fun x => !inSpan cfg spanAddr numPages x) ∧
        ∀ x, x ≠ prev → x ∉ rest → m1 x = m x := by
  intro rest
  induction rest with
  | nil =>
    intro fuel m prev current _ hl _ hlink _
    rw [IsList_nil] at hl
    refine ⟨m, ?_, ?_, fun _ _ _ => rfl⟩
    · cases fuel <;> simp [spliceLoop, hl]
    · simp [IsList, hlink, hl]
  | cons c rest ih =>
    intro fuel m prev current hprev hl hnm hlink hfuel
    obtain ⟨hc, hc0, ht⟩ := hl
    subst hc
    have hcr : current ∉ rest := IsList_head_not_mem_tail (m := m) ⟨rfl, hc0, ht⟩
    have hpc : prev ≠ current := fun e => hnm (by simp [e])
    have hpr : prev ∉ rest := fun h => hnm (List.mem_cons_of_mem _ h)
    obtain ⟨fuel, rfl⟩ : ∃ f, fuel = f + 1 := ⟨fuel - 1, by simp at hfuel; omega⟩
    have hfuel1 : rest.length ≤ fuel := by simpa using hfuel
    by_cases hin : inSpan cfg spanAddr numPages current = true
    · -- the block is removed: `*prev = next`
      obtain ⟨m1, h1, h2, h3⟩ := ih fuel (m.write prev (m current)) prev (m current) hprev
        (IsList_write prev _ hpr ht) hpr (Heap.write_same _ _ _) hfuel1
      refine ⟨m1, ?_, ?_, ?_⟩
      · simp only [spliceLoop, if_neg hc0, hin, if_true, ne_eq, hprev, not_false_eq_true]
        exact h1
      · simpa [List.filter, hin] using h2
      · intro x hx1 hx2
        rw [h3 x hx1 (fun h => hx2 (List.mem_cons_of_mem _ h)), Heap.write_other _ _ hx1]
    · -- the block is kept: `prev = current`
      obtain ⟨m1, h1, h2, h3⟩ := ih fuel m current (m current) hc0 ht hcr rfl hfuel1
      have hin2 : inSpan cfg spanAddr numPages current = false := by simpa using hin
      refine ⟨m1, ?_, ?_, ?_⟩
      · simp only [spliceLoop, if_neg hc0, hin2]
        exact h1
      · have e : m1 prev = current := by rw [h3 prev hpc hpr, hlink]
        simp only [List.filter, hin2, Bool.not_false]
        exact ⟨e, hc0, h2⟩
      · intro x hx1 hx2
        exact h3 x (fun e => hx2 (by simp [e])) (fun h => hx2 (List.mem_cons_of_mem _ h))

/-- The splice loop while no block has been kept yet and `newHead` follows `current`:
the result is the list of the blocks outside the range. -/
theorem spliceLoop_leading (cfg : Config) (spanAddr numPages : Nat) :
    ∀ (l : List Nat) (fuel : Nat) (m : Heap) (current : Nat),
      IsList m current l → l.length ≤ fuel →
      ∃ m1 h1, spliceLoop cfg spanAddr numPages fuel m current 0 current = some (m1, h1) ∧
        IsList m1 h1 (l.filter fun x => !inSpan cfg spanAddr numPages x) ∧
        ∀ x, x ∉ l → m1 x = m x := by
  intro l
  induction l with
  | nil =>
    intro fuel m current hl _
    rw [IsList_nil] at hl
    refine ⟨m, current, ?_, ?_, fun _ _ => rfl⟩
    · cases fuel <;> simp [spliceLoop, hl]
    · simp [IsList, hl]
  | cons c rest ih =>
    intro fuel m current hl hfuel
    obtain ⟨hc, hc0, ht⟩ := hl
    subst hc
    have hcr : current ∉ rest := IsList_head_not_mem_tail (m := m) ⟨rfl, hc0, ht⟩
    obtain ⟨fuel, rfl⟩ : ∃ f, fuel = f + 1 := ⟨fuel - 1, by simp at hfuel; omega⟩
    have hfuel1 : rest.length ≤ fuel := by simpa using hfuel
    by_cases hin : inSpan cfg spanAddr numPages current = true
    · obtain ⟨m1, h1, e1, e2, e3⟩ := ih fuel m (m current) ht hfuel1
      refine ⟨m1, h1, ?_, ?_, ?_⟩
      · simp only [spliceLoop, if_neg hc0, hin, if_true, ne_eq, not_true_eq_false, if_false]
        exact e1
      · simpa [List.filter, hin] using e2
      · intro x hx
        exact e3 x (fun h => hx (List.mem_cons_of_mem _ h))
    · have hin2 : inSpan cfg spanAddr numPages current = false := by simpa using hin
      obtain ⟨m1, e1, e2, e3⟩ :=
        spliceLoop_kept cfg spanAddr numPages current rest fuel m current (m current) hc0 ht
          hcr rfl hfuel1
      refine ⟨m1, current, ?_, ?_, ?_⟩
      · simp only [spliceLoop, if_neg hc0, hin2]
        exact e1
      · simp only [List.filter, hin2, Bool.not_false]
        exact ⟨rfl, hc0, e2⟩
      · intro x hx
        exact e3 x (fun e => hx (by simp [e])) (fun h => hx (List.mem_cons_of_mem _ h))

/-- The splice loop from its initial state (`newHead = prev = nullptr`): with enough
fuel it ends, the new class list is `spliceResult` of the old one, and only words of
blocks of the old list are written. -/
theorem spliceLoop_spec (cfg : Config) (spanAddr numPages : Nat) (l : List Nat) (fuel : Nat)
    (m : Heap) (head : Nat) (hl : IsList m head l) (hfuel : l.length ≤ fuel) :
    ∃ m1 h1, spliceLoop cfg spanAddr numPages fuel m 0 0 head = some (m1, h1) ∧
      IsList m1 h1 (spliceResult cfg spanAddr numPages l) ∧
      ∀ x, x ∉ l → m1 x = m x := by
  cases l with
  | nil =>
    rw [IsList_nil] at hl
    refine ⟨m, 0, ?_, ?_, fun _ _ => rfl⟩
    · cases fuel <;> simp [spliceLoop, hl]
    · simp [spliceResult, IsList]
  | cons c rest =>
    obtain ⟨hc, hc0, ht⟩ := hl
    subst hc
    have hcr : head ∉ rest := IsList_head_not_mem_tail (m := m) ⟨rfl, hc0, ht⟩
    obtain ⟨fuel, rfl⟩ : ∃ f, fuel = f + 1 := ⟨fuel - 1, by simp at hfuel; omega⟩
    have hfuel1 : rest.length ≤ fuel := by simpa using hfuel
    by_cases hin : inSpan cfg spanAddr numPages head = true
    · obtain ⟨m1, h1, e1, e2, e3⟩ :=
        spliceLoop_leading cfg spanAddr numPages rest fuel m (m head) ht hfuel1
      refine ⟨m1, h1, ?_, ?_, ?_⟩
      · simp only [spliceLoop, if_neg hc0, hin, if_true, ne_eq, not_true_eq_false, if_false]
        exact e1
      · simpa [spliceResult, List.filter, hin] using e2
      · intro x hx
        exact e3 x (fun h => hx (List.mem_cons_of_mem _ h))
    · have hin2 : inSpan cfg spanAddr numPages head = false := by simpa using hin
      obtain ⟨m1, e1, _, e3⟩ :=
        spliceLoop_kept cfg spanAddr numPages 0 rest fuel m head (m head) hc0 ht hcr rfl hfuel1
      refine ⟨m1, 0, ?_, ?_, ?_⟩
      · simp only [spliceLoop, if_neg hc0, hin2]
        exact e1
      · simp [spliceResult, hin2, IsList]
      · intro x hx
        exact e3 x (fun e => hx (by simp [e])) (fun h => hx (List.mem_cons_of_mem _ h))

theorem spliceResult_length_le (cfg : Config) (spanAddr numPages : Nat) (l : List Nat) :
    (spliceResult cfg spanAddr numPages l).length ≤ l.length := by
  cases l with
  | nil => simp [spliceResult]
  | cons c rest =>
    simp only [spliceResult]
    split_ifs
    · exact List.length_filter_le _ _
    · simp


/-! ## The delayed-return pass -/

theorem PassFrame.refl (s : CentralCache) : PassFrame s s :=
  ⟨rfl, rfl, rfl, rfl, rfl, le_refl _, fun _ => ⟨rfl, rfl, rfl⟩⟩

theorem PassFrame.trans {s s1 s2 : CentralCache} (h1 : PassFrame s s1) (h2 : PassFrame s1 s2) :
    PassFrame s s2 := by
  obtain ⟨a1, a2, a3, a4, a5, a6, a7⟩ := h1
  obtain ⟨b1, b2, b3, b4, b5, b6, b7⟩ := h2
  refine ⟨b1.trans a1, b2.trans a2, b3.trans a3, b4.trans a4, b5.trans a5, le_trans a6 b6, ?_⟩
  intro hle
  obtain ⟨c1, c2, c3⟩ := b7 (by omega)
  obtain ⟨d1, d2, d3⟩ := a7 (by rw [c3] at hle; exact hle)
  exact ⟨c1.trans d1, c2.trans d2, c3.trans d3⟩

/-- `UpdateSpanFreeCount` on a state whose class list is `l`: with enough fuel it returns,
the class list afterwards is again a list, not longer than `l`, and only the tracker
`tracker` changes among the trackers. -/
theorem UpdateSpanFreeCount_spec (cfg : Config) (fuel tracker newFreeBlocks index : Nat)
    (s : CentralCache) (l : List Nat) (hl : IsList s.mem (s.centralFreeList index) l)
    (hfuel : l.length ≤ fuel) :
    ∃ s1 l1, UpdateSpanFreeCount cfg fuel tracker newFreeBlocks index s = some s1 ∧
      IsList s1.mem (s1.centralFreeList index) l1 ∧ l1.length ≤ l.length ∧
      PassFrame s s1 ∧
      (s1.spanTrackers tracker).freeCount =
        wadd (s.spanTrackers tracker).freeCount newFreeBlocks ∧
      (∀ j, j ≠ tracker → s1.spanTrackers j = s.spanTrackers j) := by
  unfold UpdateSpanFreeCount
  simp only [setAt_same]
  by_cases hfull : wadd (s.spanTrackers tracker).freeCount newFreeBlocks =
      (s.spanTrackers tracker).blockCount
  · rw [if_pos hfull]
    obtain ⟨m1, h1, e1, e2, _⟩ := spliceLoop_spec cfg (s.spanTrackers tracker).spanAddr
      (s.spanTrackers tracker).numPages l fuel s.mem (s.centralFreeList index) hl hfuel
    simp only [e1]
    refine ⟨_, spliceResult cfg (s.spanTrackers tracker).spanAddr
      (s.spanTrackers tracker).numPages l, rfl, ?_, spliceResult_length_le cfg _ _ l, ?_, ?_, ?_⟩
    · simpa using e2
    · refine ⟨rfl, rfl, rfl, rfl, rfl, by simp, fun h => ?_⟩
      simp at h
    · simp
    · intro j hj
      simp [setAt_other _ _ hj]
  · rw [if_neg hfull]
    refine ⟨_, l, rfl, hl, le_refl _, ?_, ?_, ?_⟩
    · exact ⟨rfl, rfl, rfl, rfl, rfl, le_refl _, fun _ => ⟨rfl, rfl, rfl⟩⟩
    · simp
    · intro j hj
      simp [setAt_other _ _ hj]

/-- The update loop of the pass returns when the class list is a list and the fuel covers
its length. -/
theorem updateAll_spec (cfg : Config) (fuel index : Nat) :
    ∀ (tally : List (Nat × Nat)) (s : CentralCache) (l : List Nat),
      IsList s.mem (s.centralFreeList index) l → l.length ≤ fuel →
      ∃ s1 l1, updateAll cfg fuel index tally s = some s1 ∧
        IsList s1.mem (s1.centralFreeList index) l1 ∧ l1.length ≤ l.length ∧
        PassFrame s s1 := by
  intro tally
  induction tally with
  | nil =>
    intro s l hl _
    exact ⟨s, l, rfl, hl, le_refl _, PassFrame.refl s⟩
  | cons e rest ih =>
    intro s l hl hfuel
    obtain ⟨tracker, n⟩ := e
    obtain ⟨s1, l1, h1, h2, h3, h4, _⟩ :=
      UpdateSpanFreeCount_spec cfg fuel tracker n index s l hl hfuel
    obtain ⟨s2, l2, g1, g2, g3, g4⟩ := ih s1 l1 h2 (le_trans h3 hfuel)
    refine ⟨s2, l2, ?_, g2, le_trans g3 h3, h4.trans g4⟩
    simp only [updateAll, h1]
    exact g1

/-- The counting walk of the pass ends on a list that the fuel covers. -/
theorem tallyLoop_total (cfg : Config) (s : CentralCache) :
    ∀ (l : List Nat) (fuel current : Nat) (acc : List (Nat × Nat)),
      IsList s.mem current l → l.length ≤ fuel →
      ∃ tally, tallyLoop cfg s fuel current acc = some tally := by
  intro l
  induction l with
  | nil =>
    intro fuel current acc hl _
    rw [IsList_nil] at hl
    exact ⟨acc, by cases fuel <;> simp [tallyLoop, hl]⟩
  | cons c rest ih =>
    intro fuel current acc hl hfuel
    obtain ⟨hc, hc0, ht⟩ := hl
    subst hc
    obtain ⟨fuel, rfl⟩ : ∃ f, fuel = f + 1 := ⟨fuel - 1, by simp at hfuel; omega⟩
    simp only [tallyLoop, if_neg hc0]
    exact ih fuel _ _ ht (by simpa using hfuel)

/-- `PerformDelayedReturn` on a state whose class list is `l`: with enough fuel it returns;
afterwards `delay_count[index]` is 0 and `last_return_time[index]` is the clock reading,
the bookkeeping of the other classes is unchanged, and the class list is again a list. -/
theorem PerformDelayedReturn_spec (cfg : Config) (now : Int) (fuel index : Nat)
    (s : CentralCache) (l : List Nat) (hl : IsList s.mem (s.centralFreeList index) l)
    (hfuel : l.length ≤ fuel) :
    ∃ s1 l1, PerformDelayedReturn cfg now fuel index s = some s1 ∧
      IsList s1.mem (s1.centralFreeList index) l1 ∧ l1.length ≤ l.length ∧
      s1.delayCounts = setAt s.delayCounts index 0 ∧
      s1.lastReturnTimes = setAt s.lastReturnTimes index now ∧
      s1.locks = s.locks ∧ s1.spanCount = s.spanCount ∧ s1.allocLog = s.allocLog ∧
      s.deallocLog.length ≤ s1.deallocLog.length ∧
      (s1.deallocLog.length ≤ s.deallocLog.length →
        s1.mem = s.mem ∧ s1.centralFreeList = s.centralFreeList ∧
        s1.deallocLog = s.deallocLog) := by
  unfold PerformDelayedReturn
  obtain ⟨tally, ht⟩ := tallyLoop_total cfg
    { s with delayCounts := setAt s.delayCounts index 0,
             lastReturnTimes := setAt s.lastReturnTimes index now }
    l fuel (s.centralFreeList index) [] hl hfuel
  simp only [ht]
  obtain ⟨s1, l1, h1, h2, h3, h4⟩ := updateAll_spec cfg fuel index tally
    { s with delayCounts := setAt s.delayCounts index 0,
             lastReturnTimes := setAt s.lastReturnTimes index now } l hl hfuel
  obtain ⟨a1, a2, a3, a4, a5, a6, a7⟩ := h4
  exact ⟨s1, l1, h1, h2, h3, a1, a2, a3, a4, a5, a6, a7⟩


/-! ## `ReturnRange` -/

/-- The walk of `ReturnRange` over a chain that has no more blocks than announced stops
at the last block of the chain. -/
theorem findEnd_last (m : Heap) (blockCount : Nat) :
    ∀ (rest : List Nat) (bound end_ count : Nat),
      IsList m end_ (end_ :: rest) → count + rest.length ≤ blockCount → rest.length ≤ bound →
      ∃ pre, end_ :: rest = pre ++ [findEnd m blockCount bound end_ count] := by
  intro rest
  induction rest with
  | nil =>
    intro bound end_ count hl _ _
    obtain ⟨_, _, hz⟩ := hl
    rw [IsList_nil] at hz
    refine ⟨[], ?_⟩
    cases bound <;> simp [findEnd, hz]
  | cons r rest ih =>
    intro bound end_ count hl hcount hbound
    obtain ⟨_, he, hr, hr0, ht⟩ := hl
    obtain ⟨bound, rfl⟩ : ∃ b, bound = b + 1 := ⟨bound - 1, by simp at hbound; omega⟩
    have hlt : count < blockCount := by simp at hcount; omega
    have hne : m end_ ≠ 0 := by rw [hr]; exact hr0
    obtain ⟨pre, hpre⟩ := ih bound r (count + 1) ⟨rfl, hr0, ht⟩
      (by simp at hcount; omega) (by simpa using hbound)
    refine ⟨end_ :: pre, ?_⟩
    simp only [findEnd]
    rw [if_pos ⟨hne, hlt⟩, hr, List.cons_append, ← hpre]

/-- Storing the head of a second list in the link of the last block of a first list
concatenates the two, when that block is not in the second list. -/
theorem IsList_link (m : Heap) (z h2 : Nat) (old : List Nat) (hold : IsList m h2 old)
    (hz : z ∉ old) : ∀ (pre : List Nat) (h : Nat),
      IsList m h (pre ++ [z]) → IsList (m.write z h2) h (pre ++ z :: old) := by
  intro pre
  induction pre with
  | nil =>
    intro h hl
    obtain ⟨e, hz0, _⟩ := hl
    refine ⟨e, hz0, ?_⟩
    rw [Heap.write_same]
    exact IsList_write z h2 hz hold
  | cons p pre ih =>
    intro h hl
    have hnd := IsList_nodup hl
    obtain ⟨e, hp0, ht⟩ := hl
    have hpz : p ≠ z := by
      intro e2
      rw [List.cons_append, List.nodup_cons] at hnd
      exact hnd.1 (by simp [e2])
    refine ⟨e, hp0, ?_⟩
    rw [Heap.write_other _ _ hpz]
    exact ih _ ht

/-- Step 1 of `ReturnRange`: the class list becomes the returned chain followed by the
previous class list. -/
theorem linkChain_list (start blockCount index : Nat) (s : CentralCache)
    (chain old : List Nat) (hstart : start ≠ 0) (hchain : IsList s.mem start chain)
    (hlen : chain.length ≤ blockCount)
    (hold : IsList s.mem (s.centralFreeList index) old) (hdisj : ∀ b ∈ chain, b ∉ old) :
    IsList (linkChain start blockCount index s).mem
      ((linkChain start blockCount index s).centralFreeList index) (chain ++ old) := by
  cases chain with
  | nil => rw [IsList_nil] at hchain; exact absurd hchain hstart
  | cons c rest =>
    have hc : start = c := hchain.1
    subst hc
    obtain ⟨pre, hpre⟩ := findEnd_last s.mem blockCount rest blockCount start 1 hchain
      (by simp at hlen; omega) (by simp at hlen; omega)
    have hmem : findEnd s.mem blockCount blockCount start 1 ∈ start :: rest := by
      rw [hpre]; simp
    have h := IsList_link s.mem (findEnd s.mem blockCount blockCount start 1)
      (s.centralFreeList index) old hold (hdisj _ hmem) pre start (by rw [← hpre]; exact hchain)
    simp only [linkChain, setAt_same]
    rw [hpre, List.append_assoc]
    exact h

theorem linkChain_frame (start blockCount index : Nat) (s : CentralCache) :
    (linkChain start blockCount index s).locks = s.locks ∧
    (linkChain start blockCount index s).delayCounts = s.delayCounts ∧
    (linkChain start blockCount index s).lastReturnTimes = s.lastReturnTimes ∧
    (linkChain start blockCount index s).spanTrackers = s.spanTrackers ∧
    (linkChain start blockCount index s).spanCount = s.spanCount ∧
    (linkChain start blockCount index s).allocLog = s.allocLog ∧
    (linkChain start blockCount index s).deallocLog = s.deallocLog ∧
    ∀ j, j ≠ index →
      (linkChain start blockCount index s).centralFreeList j = s.centralFreeList j :=
  ⟨rfl, rfl, rfl, rfl, rfl, rfl, rfl, fun _ hj => setAt_other _ _ hj⟩

/-- The test of `ShouldPerformDelayedReturn`, as a proposition. -/
theorem ShouldPerformDelayedReturn_iff (cfg : Config) (index currentCount : Nat)
    (currentTime : Int) (s : CentralCache) :
    ShouldPerformDelayedReturn cfg index currentCount currentTime s = true ↔
      cfg.MAX_DELAY_COUNT ≤ currentCount ∨
        DELAY_INTERVAL ≤ currentTime - s.lastReturnTimes index := by
  unfold ShouldPerformDelayedReturn
  by_cases h : cfg.MAX_DELAY_COUNT ≤ currentCount <;> simp [h]

/-- A valid call of `ReturnRange` on a free lock, unfolded. -/
theorem ReturnRange_valid (cfg : Config) (currentTime now : Int)
    (fuel start size index : Nat) (s : CentralCache) (hidx : index < FREE_LIST_SIZE)
    (hstart : start ≠ 0) (hlock : s.locks index = false) :
    ReturnRange cfg currentTime now fuel start size index s =
      (if cfg.MAX_DELAY_COUNT ≤ wadd (s.delayCounts index) 1 ∨
          DELAY_INTERVAL ≤ currentTime - s.lastReturnTimes index then
        PerformDelayedReturn cfg now fuel index (linkedState start size index s)
      else some (linkedState start size index s)).map (unlock index) := by
  unfold ReturnRange
  simp only [hstart, Nat.not_le.mpr hidx, or_self, if_false, hlock, Bool.false_eq_true]
  have hiff := ShouldPerformDelayedReturn_iff cfg index (wadd (s.delayCounts index) 1)
    currentTime (linkedState start size index s)
  have hlast : (linkedState start size index s).lastReturnTimes = s.lastReturnTimes := rfl
  rw [hlast] at hiff
  by_cases hc : cfg.MAX_DELAY_COUNT ≤ wadd (s.delayCounts index) 1 ∨
      DELAY_INTERVAL ≤ currentTime - s.lastReturnTimes index
  · rw [if_pos hc]
    have := hiff.mpr hc
    simp only [linkedState] at this ⊢
    simp only [linkChain] at this ⊢
    rw [if_pos this]
  · rw [if_neg hc]
    have : ¬ ShouldPerformDelayedReturn cfg index (wadd (s.delayCounts index) 1)
        currentTime (linkedState start size index s) = true := fun h => hc (hiff.mp h)
    simp only [linkedState] at this ⊢
    simp only [linkChain] at this ⊢
    rw [if_neg this]
    rfl


/-- C8: for a valid call (free lock, `index < FREE_LIST_SIZE`, non-null `start` heading a
null-terminated chain of exactly `n = total_bytes / block_size(index)` blocks, none of
which is in the class list `old`), when `ReturnRange` reaches its delayed-return check the
class list is the chain followed by `old`; the call returns, and the class list is still
`chain ++ old` after it unless the delayed-return pass released a span (recorded a
`deallocateSpan` call).  The list is `n` blocks longer than `old` and has no block twice. -/
theorem push_front_chain (cfg : Config) (currentTime now : Int)
    (fuel start size index : Nat) (s : CentralCache) (chain old : List Nat)
    (hidx : index < FREE_LIST_SIZE) (hlock : s.locks index = false) (hstart : start ≠ 0)
    (hchain : IsList s.mem start chain) (hlen : chain.length = size / blockSize index)
    (hold : IsList s.mem (s.centralFreeList index) old) (hdisj : ∀ b ∈ chain, b ∉ old)
    (hfuel : chain.length + old.length ≤ fuel) :
    1 ≤ size / blockSize index ∧
    IsList (linkedState start size index s).mem
      ((linkedState start size index s).centralFreeList index) (chain ++ old) ∧
    (chain ++ old).length = old.length + size / blockSize index ∧ (chain ++ old).Nodup ∧
    ∃ s1, ReturnRange cfg currentTime now fuel start size index s = some s1 ∧
      (s1.deallocLog = s.deallocLog →
        IsList s1.mem (s1.centralFreeList index) (chain ++ old) ∧
        ∀ j, j ≠ index → s1.centralFreeList j = s.centralFreeList j) := by
  have hn : 1 ≤ size / blockSize index := by
    rw [← hlen]
    cases chain with
    | nil => rw [IsList_nil] at hchain; exact absurd hchain hstart
    | cons c rest => simp
  have hlink : IsList (linkedState start size index s).mem
      ((linkedState start size index s).centralFreeList index) (chain ++ old) :=
    linkChain_list start (size / blockSize index) index
      { s with locks := setAt s.locks index true } chain old hstart hchain (le_of_eq hlen)
      hold hdisj
  refine ⟨hn, hlink, by rw [List.length_append, hlen]; omega, IsList_nodup hlink, ?_⟩
  rw [ReturnRange_valid cfg currentTime now fuel start size index s hidx hstart hlock]
  have hheads : ∀ j, j ≠ index →
      (linkedState start size index s).centralFreeList j = s.centralFreeList j :=
    fun j hj => setAt_other _ _ hj
  split_ifs with hc
  · obtain ⟨s1, l1, h1, _, _, _, _, _, _, _, _, h2⟩ :=
      PerformDelayedReturn_spec cfg now fuel index (linkedState start size index s)
        (chain ++ old) hlink (by rw [List.length_append]; exact hfuel)
    refine ⟨unlock index s1, by rw [h1]; rfl, fun hd => ?_⟩
    have hd2 : s1.deallocLog = (linkedState start size index s).deallocLog := hd
    obtain ⟨e1, e2, _⟩ := h2 (by rw [hd2])
    simp only [unlock_mem, unlock_centralFreeList, e1, e2]
    exact ⟨hlink, hheads⟩
  · exact ⟨unlock index (linkedState start size index s), rfl, fun _ => ⟨hlink, hheads⟩⟩

theorem push_front_chain_witness :
    (1023 < FREE_LIST_SIZE ∧ hitExample.locks 1023 = false ∧
      IsList hitExample.mem 1048576 [1048576] ∧
      [1048576].length = 8192 / blockSize 1023 ∧
      IsList hitExample.mem (hitExample.centralFreeList 1023) [1056768, 1064960]) ∧
    ∃ s1, ReturnRange exampleConfig 0 0 10 1048576 8192 1023 hitExample = some s1 ∧
      IsList s1.mem (s1.centralFreeList 1023) [1048576, 1056768, 1064960] := by
  have hc : IsList hitExample.mem 1048576 [1048576] := ⟨rfl, by decide, rfl⟩
  have hl : IsList hitExample.mem (hitExample.centralFreeList 1023) [1056768, 1064960] :=
    ⟨rfl, by decide, rfl, by decide, rfl⟩
  refine ⟨⟨by decide, rfl, hc, by decide, hl⟩, ?_⟩
  obtain ⟨_, _, _, _, s1, h1, h2⟩ :=
    push_front_chain exampleConfig 0 0 10 1048576 8192 1023 hitExample [1048576]
      [1056768, 1064960] (by decide) rfl (by decide) hc (by decide) hl (by decide) (by decide)
  have hd : (ReturnRange exampleConfig 0 0 10 1048576 8192 1023 hitExample).map
      (fun r => r.deallocLog) = some [] := by decide
  rw [h1] at hd
  exact ⟨s1, h1, (h2 (by simpa using hd)).1⟩

/-- C9: for a valid `ReturnRange` call (as in C8), the delayed-return procedure is run
exactly when the incremented `delay_count[index]` is at least `MAX_DELAY_COUNT` or
`now - last_return_time[index] ≥ DELAY_INTERVAL`; the call returns; when the procedure
ran, `delay_count[index]` is 0 and `last_return_time[index]` is the new clock reading;
otherwise `delay_count[index]` is the old value plus one, `last_return_time[index]`, the
trackers and the record of released spans are unchanged; in both cases
`delay_count[index] < MAX_DELAY_COUNT` (for `MAX_DELAY_COUNT > 0`) and the lock is free. -/
theorem delayed_return_trigger (cfg : Config) (currentTime now : Int)
    (fuel start size index : Nat) (s : CentralCache) (chain old : List Nat)
    (hidx : index < FREE_LIST_SIZE) (hlock : s.locks index = false) (hstart : start ≠ 0)
    (hchain : IsList s.mem start chain) (hlen : chain.length = size / blockSize index)
    (hold : IsList s.mem (s.centralFreeList index) old) (hdisj : ∀ b ∈ chain, b ∉ old)
    (hfuel : chain.length + old.length ≤ fuel) (hmax : 0 < cfg.MAX_DELAY_COUNT) :
    ReturnRange cfg currentTime now fuel start size index s =
      (if cfg.MAX_DELAY_COUNT ≤ wadd (s.delayCounts index) 1 ∨
          DELAY_INTERVAL ≤ currentTime - s.lastReturnTimes index then
        PerformDelayedReturn cfg now fuel index (linkedState start size index s)
      else some (linkedState start size index s)).map (unlock index) ∧
    ∃ s1, ReturnRange cfg currentTime now fuel start size index s = some s1 ∧
      ((cfg.MAX_DELAY_COUNT ≤ wadd (s.delayCounts index) 1 ∨
          DELAY_INTERVAL ≤ currentTime - s.lastReturnTimes index) →
        s1.delayCounts index = 0 ∧ s1.lastReturnTimes index = now) ∧
      (¬ (cfg.MAX_DELAY_COUNT ≤ wadd (s.delayCounts index) 1 ∨
          DELAY_INTERVAL ≤ currentTime - s.lastReturnTimes index) →
        s1.delayCounts index = wadd (s.delayCounts index) 1 ∧
        (s.delayCounts index + 1 < SIZE_T_RANGE →
          s1.delayCounts index = s.delayCounts index + 1) ∧
        s1.lastReturnTimes index = s.lastReturnTimes index ∧
        s1.spanTrackers = s.spanTrackers ∧ s1.deallocLog = s.deallocLog) ∧
      s1.delayCounts index < cfg.MAX_DELAY_COUNT ∧ s1.locks index = false ∧
      (∀ j, j ≠ index → s1.delayCounts j = s.delayCounts j ∧
        s1.lastReturnTimes j = s.lastReturnTimes j) := by
  have hvalid := ReturnRange_valid cfg currentTime now fuel start size index s hidx hstart hlock
  refine ⟨hvalid, ?_⟩
  rw [hvalid]
  have hlink : IsList (linkedState start size index s).mem
      ((linkedState start size index s).centralFreeList index) (chain ++ old) :=
    linkChain_list start (size / blockSize index) index
      { s with locks := setAt s.locks index true } chain old hstart hchain (le_of_eq hlen)
      hold hdisj
  have hdc : (linkedState start size index s).delayCounts =
      setAt s.delayCounts index (wadd (s.delayCounts index) 1) := rfl
  have hlt : (linkedState start size index s).lastReturnTimes = s.lastReturnTimes := rfl
  by_cases hc : cfg.MAX_DELAY_COUNT ≤ wadd (s.delayCounts index) 1 ∨
      DELAY_INTERVAL ≤ currentTime - s.lastReturnTimes index
  · rw [if_pos hc]
    obtain ⟨s1, l1, h1, _, _, h2, h3, _⟩ :=
      PerformDelayedReturn_spec cfg now fuel index (linkedState start size index s)
        (chain ++ old) hlink (by rw [List.length_append]; exact hfuel)
    refine ⟨unlock index s1, by rw [h1]; rfl, ?_, fun hn => absurd hc hn, ?_, ?_, ?_⟩
    · intro _
      simp only [unlock_delayCounts, unlock_lastReturnTimes, h2, h3, setAt_same, and_self]
    · simp only [unlock_delayCounts, h2, setAt_same]
      exact hmax
    · exact unlock_locks_same _ _
    · intro j hj
      simp only [unlock_delayCounts, unlock_lastReturnTimes, h2, h3, hdc, hlt,
        setAt_other _ _ hj, and_self]
  · rw [if_neg hc]
    refine ⟨unlock index (linkedState start size index s), rfl, fun h => absurd h hc, ?_, ?_,
      unlock_locks_same _ _, ?_⟩
    · intro _
      refine ⟨?_, fun h => ?_, rfl, rfl, rfl⟩
      · simp only [unlock_delayCounts, hdc, setAt_same]
      · simp only [unlock_delayCounts, hdc, setAt_same]
        exact wadd_eq h
    · simp only [unlock_delayCounts, hdc, setAt_same]
      have : ¬ cfg.MAX_DELAY_COUNT ≤ wadd (s.delayCounts index) 1 := fun h => hc (Or.inl h)
      omega
    · intro j hj
      simp only [unlock_delayCounts, unlock_lastReturnTimes, hdc, hlt, setAt_other _ _ hj,
        and_self]

theorem delayed_return_trigger_witness :
    (1023 < FREE_LIST_SIZE ∧ hitExample.locks 1023 = false ∧
      IsList hitExample.mem 1048576 [1048576] ∧
      IsList hitExample.mem (hitExample.centralFreeList 1023) [1056768, 1064960] ∧
      0 < exampleConfig.MAX_DELAY_COUNT ∧
      DELAY_INTERVAL ≤ 1000000000 - hitExample.lastReturnTimes 1023) ∧
    ∃ s1, ReturnRange exampleConfig 1000000000 1000000005 10 1048576 8192 1023 hitExample =
        some s1 ∧
      s1.delayCounts 1023 = 0 ∧ s1.lastReturnTimes 1023 = 1000000005 ∧
      s1.locks 1023 = false := by
  have hc : IsList hitExample.mem 1048576 [1048576] := ⟨rfl, by decide, rfl⟩
  have hl : IsList hitExample.mem (hitExample.centralFreeList 1023) [1056768, 1064960] :=
    ⟨rfl, by decide, rfl, by decide, rfl⟩
  refine ⟨⟨by decide, rfl, hc, hl, by decide, by decide⟩, ?_⟩
  obtain ⟨_, s1, h1, h2, _, _, h3, _⟩ :=
    delayed_return_trigger exampleConfig 1000000000 1000000005 10 1048576 8192 1023
      hitExample [1048576] [1056768, 1064960] (by decide) rfl (by decide) hc (by decide) hl
      (by decide) (by decide) (by decide)
  obtain ⟨h4, h5⟩ := h2 (Or.inr (by decide))
  exact ⟨s1, h1, h4, h5, h3⟩


/-- C10 (the code at the failing input): after `accountingRun` the delayed-return pass has
just run on class 2047 (`delay_count` 0, `last_return_time` refreshed), no span was
released, the class free list holds the 2 blocks of the only span, and the `free_count`
of that span is 3: the sum of `free_count` over the live spans is not the list length. -/
theorem accounting_after_pass_fails :
    accountingRun.map (fun r => (r.1, r.2.delayCounts 2047, r.2.lastReturnTimes 2047)) =
      some (1048576, 0, 1000000000) ∧
    accountingRun.map (fun r => (r.2.spanCount, r.2.deallocLog)) = some (1, []) ∧
    accountingRun.map (fun r => listOf r.2.mem 4 (r.2.centralFreeList 2047)) =
      some (some [1048576, 1064960]) ∧
    accountingRun.map (fun r => r.2.spanTrackers 0) = some ⟨1048576, 8, 2, 3⟩ ∧
    accountingRun.map (fun r => trackedFreeCount r.2) = some 3 := by
  refine ⟨by decide, by decide, by decide, by decide, by decide⟩


/-! ## Span release and the tracker bounds -/

/-- C11 (the code at the failing input): in `spanReleaseRun` both blocks of the span of
class 2047 are fetched, one is returned and a delayed-return pass runs, the last one is
returned and another pass runs (`delay_count` is 0 and `last_return_time` is the time
of the second return); both blocks are in the class list again, `deallocateSpan` was never
called, and the `free_count` of the span is 3 with `block_count` 2. -/
theorem span_release_never_happens :
    bothFetchedRun.map (fun r => (r.1, listOf r.2.mem 4 (r.2.centralFreeList 2047))) =
      some ([1048576, 1064960], some []) ∧
    spanReleaseRun.map (fun r => (r.2.delayCounts 2047, r.2.lastReturnTimes 2047)) =
      some (0, 2000000000) ∧
    spanReleaseRun.map (fun r => listOf r.2.mem 4 (r.2.centralFreeList 2047)) =
      some (some [1064960, 1048576]) ∧
    spanReleaseRun.map (fun r => r.2.deallocLog) = some [] ∧
    spanReleaseRun.map (fun r => (r.2.spanCount, r.2.spanTrackers 0)) =
      some (1, ⟨1048576, 8, 2, 3⟩) := by
  refine ⟨by decide, by decide, by decide, by decide, by decide⟩

/-- C12 (the code at the failing inputs): in `accountingRun` a delayed-return pass leaves
the registered tracker with `free_count` 3 above its `block_count` 2; in `underflowRun` a
block that was returned without a pass is fetched again and the `free_count` of its
tracker wraps from 0 to `2 ^ 64 - 1`. -/
theorem tracker_bound_fails :
    accountingRun.map (fun r => (r.2.spanCount, r.2.spanTrackers 0)) =
      some (1, ⟨1048576, 8, 2, 3⟩) ∧
    bothFetchedRun.map (fun r => (r.2.spanCount, r.2.spanTrackers 0)) =
      some (1, ⟨1048576, 8, 2, 0⟩) ∧
    underflowRun.map (fun r => r.1) = some [1048576, 1064960, 1064960] ∧
    underflowRun.map (fun r => (r.2.spanCount, r.2.spanTrackers 0)) =
      some (1, ⟨1048576, 8, 2, 2 ^ 64 - 1⟩) := by
  refine ⟨by decide, by decide, by decide, by decide⟩


/-! ## The Page-Layer request -/

/-- C13: for a block size `s ≥ 1` and `PAGE_SIZE > 0` (with `SPAN_PAGES * PAGE_SIZE` and
`s + PAGE_SIZE` representable in `size_t`), `FetchFromPageCache s` passes to
`allocateSpan` exactly `SPAN_PAGES` pages when `s ≤ SPAN_PAGES * PAGE_SIZE` and exactly
`⌈s / PAGE_SIZE⌉` pages otherwise; `FetchRange` carves with the same page count, and the
block count `(num_pages * PAGE_SIZE) / s` is at least 1. -/
theorem page_request_rule (cfg : Config) (allocateSpan : Nat → Nat) (s : Nat)
    (st : CentralCache) (hs : 1 ≤ s) (hpage : 0 < cfg.PAGE_SIZE)
    (hspan : SPAN_PAGES * cfg.PAGE_SIZE < SIZE_T_RANGE)
    (hsum : s + cfg.PAGE_SIZE ≤ SIZE_T_RANGE) :
    (FetchFromPageCache cfg allocateSpan s st).2.allocLog =
        pagesRequested cfg s :: st.allocLog ∧
    (FetchFromPageCache cfg allocateSpan s st).1 = allocateSpan (pagesRequested cfg s) ∧
    (s ≤ SPAN_PAGES * cfg.PAGE_SIZE → pagesRequested cfg s = SPAN_PAGES) ∧
    (SPAN_PAGES * cfg.PAGE_SIZE < s →
      pagesRequested cfg s = (s + cfg.PAGE_SIZE - 1) / cfg.PAGE_SIZE ∧
      s ≤ pagesRequested cfg s * cfg.PAGE_SIZE ∧
      pagesRequested cfg s * cfg.PAGE_SIZE < s + cfg.PAGE_SIZE) ∧
    carvePages cfg s = pagesRequested cfg s ∧
    wmul (carvePages cfg s) cfg.PAGE_SIZE / s = pagesRequested cfg s * cfg.PAGE_SIZE / s ∧
    1 ≤ pagesRequested cfg s * cfg.PAGE_SIZE / s := by
  have h8 : wmul SPAN_PAGES cfg.PAGE_SIZE = SPAN_PAGES * cfg.PAGE_SIZE := wmul_eq hspan
  have hq : wsub (wadd s cfg.PAGE_SIZE) 1 / cfg.PAGE_SIZE =
      (s + cfg.PAGE_SIZE - 1) / cfg.PAGE_SIZE := by
    by_cases hlt : s + cfg.PAGE_SIZE < SIZE_T_RANGE
    · rw [wadd_eq hlt, wsub_eq (by omega) hlt]
    · -- the sum is exactly `2 ^ 64`: the addition wraps to 0 and the subtraction to `2 ^ 64 - 1`
      have he : s + cfg.PAGE_SIZE = SIZE_T_RANGE := by omega
      have h0 : wadd s cfg.PAGE_SIZE = 0 := by
        unfold wadd; rw [he]; exact Nat.mod_self _
      rw [h0, wsub_zero_one, he]
  have hceil1 : s ≤ (s + cfg.PAGE_SIZE - 1) / cfg.PAGE_SIZE * cfg.PAGE_SIZE := by
    have := Nat.lt_div_mul_add (a := s + cfg.PAGE_SIZE - 1) hpage
    omega
  have hceil2 : (s + cfg.PAGE_SIZE - 1) / cfg.PAGE_SIZE * cfg.PAGE_SIZE < s + cfg.PAGE_SIZE := by
    have := Nat.div_mul_le_self (s + cfg.PAGE_SIZE - 1) cfg.PAGE_SIZE
    omega
  have hsmall : s ≤ SPAN_PAGES * cfg.PAGE_SIZE → pagesRequested cfg s = SPAN_PAGES := by
    intro h
    simp only [pagesRequested, h8, if_pos h]
  have hlarge : SPAN_PAGES * cfg.PAGE_SIZE < s →
      pagesRequested cfg s = (s + cfg.PAGE_SIZE - 1) / cfg.PAGE_SIZE := by
    intro h
    simp only [pagesRequested, h8, if_neg (Nat.not_le.mpr h), hq]
  have hbytes : s ≤ pagesRequested cfg s * cfg.PAGE_SIZE ∧
      pagesRequested cfg s * cfg.PAGE_SIZE < SIZE_T_RANGE := by
    by_cases h : s ≤ SPAN_PAGES * cfg.PAGE_SIZE
    · rw [hsmall h]; exact ⟨h, hspan⟩
    · rw [hlarge (by omega)]; exact ⟨hceil1, by omega⟩
  refine ⟨rfl, rfl, hsmall, fun h => ?_, rfl, ?_, ?_⟩
  · rw [hlarge h]; exact ⟨rfl, hceil1, hceil2⟩
  · rw [carvePages_eq_pagesRequested, wmul_eq hbytes.2]
  · exact (Nat.one_le_div_iff (by omega)).mpr hbytes.1

theorem page_request_rule_witness :
    (1 ≤ 40000 ∧ 0 < exampleConfig.PAGE_SIZE ∧
      SPAN_PAGES * exampleConfig.PAGE_SIZE < 40000) ∧
    pagesRequested exampleConfig 40000 = 10 ∧
    (FetchFromPageCache exampleConfig (fun _ => 1048576) 40000 emptyCache).2.allocLog = [10] ∧
    1 ≤ pagesRequested exampleConfig 40000 * exampleConfig.PAGE_SIZE / 40000 := by
  obtain ⟨h1, _, _, h2, _, _, h3⟩ :=
    page_request_rule exampleConfig (fun _ => 1048576) 40000 emptyCache (by decide) (by decide)
      (by decide) (by decide)
  have e : pagesRequested exampleConfig 40000 = 10 := by decide
  refine ⟨by decide, e, ?_, h3⟩
  rw [h1, e]
  rfl


/-! ## The span-release splice -/

/-- C14 (the code at the failing input): in `spliceRun` the delayed-return pass starts on
the class list `[1048576, 2113536, 2097152]`, whose first block belongs to the span at
`1048576`, and finds the span at `2097152` (slot 1) with `free_count = block_count = 2`.
The blocks of the list outside the released range are `[1048576]`, but the class list
after the pass is empty: `newHead` is never assigned once the first block is kept. -/
theorem splice_drops_kept_head :
    twoSpansRun.map (fun r =>
        listOf (linkedState 1048576 16384 2047 r.2).mem 4
          ((linkedState 1048576 16384 2047 r.2).centralFreeList 2047)) =
      some (some [1048576, 2113536, 2097152]) ∧
    spliceRun.map (fun r => (r.2.spanTrackers 1, r.2.deallocLog)) =
      some (⟨2097152, 8, 2, 2⟩, [(2097152, 8)]) ∧
    [1048576, 2113536, 2097152].filter (fun x => !inSpan exampleConfig 2097152 8 x) =
      [1048576] ∧
    spliceRun.map (fun r => (r.2.centralFreeList 2047,
        listOf r.2.mem 4 (r.2.centralFreeList 2047))) = some (0, some []) := by
  refine ⟨by decide, by decide, by decide, by decide⟩


/-! ## Trackers are never retired -/

theorem TrackersKept_refl (s : CentralCache) : TrackersKept s s :=
  ⟨le_refl _, fun _ _ => ⟨rfl, rfl⟩⟩

theorem TrackersKept_trans {s s1 s2 : CentralCache} (h1 : TrackersKept s s1)
    (h2 : TrackersKept s1 s2) : TrackersKept s s2 := by
  refine ⟨le_trans h1.1 h2.1, fun j hj => ?_⟩
  obtain ⟨a1, a2⟩ := h1.2 j hj
  obtain ⟨b1, b2⟩ := h2.2 j (lt_of_lt_of_le hj h1.1)
  exact ⟨b1.trans a1, b2.trans a2⟩

/-- A tracker found by the lookup is still the one found once more slots are registered. -/
theorem GetSpanTracker_kept (cfg : Config) {s s1 : CentralCache} (h : TrackersKept s s1)
    {p t : Nat} (hp : GetSpanTracker cfg s p = some t) : GetSpanTracker cfg s1 p = some t := by
  obtain ⟨h1, h2, h3⟩ := (GetSpanTracker_eq_some cfg s p t).mp hp
  refine (GetSpanTracker_eq_some cfg s1 p t).mpr ⟨lt_of_lt_of_le h1 h.1, ?_, fun j hj => ?_⟩
  · obtain ⟨a1, a2⟩ := h.2 t h1
    rw [a1, a2]; exact h2
  · obtain ⟨a1, a2⟩ := h.2 j (lt_trans hj h1)
    rw [a1, a2]; exact h3 j hj

theorem UpdateSpanFreeCount_kept (cfg : Config) (fuel tracker newFreeBlocks index : Nat)
    (s s1 : CentralCache)
    (h : UpdateSpanFreeCount cfg fuel tracker newFreeBlocks index s = some s1) :
    s1.spanCount = s.spanCount ∧
    ∀ j, (s1.spanTrackers j).spanAddr = (s.spanTrackers j).spanAddr ∧
      (s1.spanTrackers j).numPages = (s.spanTrackers j).numPages := by
  unfold UpdateSpanFreeCount at h
  simp only [setAt_same] at h
  have key : ∀ j, (setAt s.spanTrackers tracker
      { s.spanTrackers tracker with
        freeCount := wadd (s.spanTrackers tracker).freeCount newFreeBlocks } j).spanAddr =
        (s.spanTrackers j).spanAddr ∧
      (setAt s.spanTrackers tracker
      { s.spanTrackers tracker with
        freeCount := wadd (s.spanTrackers tracker).freeCount newFreeBlocks } j).numPages =
        (s.spanTrackers j).numPages := by
    intro j
    by_cases hj : j = tracker
    · subst hj; simp
    · simp [setAt_other _ _ hj]
  split_ifs at h
  · cases hs : spliceLoop cfg (s.spanTrackers tracker).spanAddr (s.spanTrackers tracker).numPages
        fuel s.mem 0 0 (s.centralFreeList index) with
    | none => simp [hs] at h
    | some r =>
      simp only [hs, Option.some.injEq] at h
      subst h
      exact ⟨rfl, key⟩
  · simp only [Option.some.injEq] at h
    subst h
    exact ⟨rfl, key⟩

theorem updateAll_kept (cfg : Config) (fuel index : Nat) :
    ∀ (tally : List (Nat × Nat)) (s s1 : CentralCache),
      updateAll cfg fuel index tally s = some s1 →
      s1.spanCount = s.spanCount ∧
      ∀ j, (s1.spanTrackers j).spanAddr = (s.spanTrackers j).spanAddr ∧
        (s1.spanTrackers j).numPages = (s.spanTrackers j).numPages := by
  intro tally
  induction tally with
  | nil =>
    intro s s1 h
    simp only [updateAll, Option.some.injEq] at h
    subst h
    exact ⟨rfl, fun _ => ⟨rfl, rfl⟩⟩
  | cons e rest ih =>
    intro s s1 h
    obtain ⟨tracker, n⟩ := e
    simp only [updateAll] at h
    cases hu : UpdateSpanFreeCount cfg fuel tracker n index s with
    | none => simp [hu] at h
    | some s2 =>
      simp only [hu] at h
      obtain ⟨a1, a2⟩ := UpdateSpanFreeCount_kept cfg fuel tracker n index s s2 hu
      obtain ⟨b1, b2⟩ := ih s2 s1 h
      exact ⟨b1.trans a1, fun j => ⟨(b2 j).1.trans (a2 j).1, (b2 j).2.trans (a2 j).2⟩⟩

theorem PerformDelayedReturn_kept (cfg : Config) (now : Int) (fuel index : Nat)
    (s s1 : CentralCache) (h : PerformDelayedReturn cfg now fuel index s = some s1) :
    s1.spanCount = s.spanCount ∧
    ∀ j, (s1.spanTrackers j).spanAddr = (s.spanTrackers j).spanAddr ∧
      (s1.spanTrackers j).numPages = (s.spanTrackers j).numPages := by
  unfold PerformDelayedReturn at h
  simp only at h
  split at h
  · simp at h
  · have := updateAll_kept cfg fuel index _ _ s1 h
    exact this

/-- `ReturnRange` retires no tracker: `spanCount_` and the range of every slot are as
before the call, whether or not the call released a span. -/
theorem ReturnRange_kept (cfg : Config) (currentTime now : Int)
    (fuel start size index : Nat) (s s1 : CentralCache)
    (h : ReturnRange cfg currentTime now fuel start size index s = some s1) :
    s1.spanCount = s.spanCount ∧
    ∀ j, (s1.spanTrackers j).spanAddr = (s.spanTrackers j).spanAddr ∧
      (s1.spanTrackers j).numPages = (s.spanTrackers j).numPages := by
  by_cases hv : start = 0 ∨ FREE_LIST_SIZE ≤ index
  · simp only [ReturnRange, if_pos hv, Option.some.injEq] at h
    subst h
    exact ⟨rfl, fun _ => ⟨rfl, rfl⟩⟩
  · by_cases hlock : s.locks index = true
    · simp [ReturnRange, hv, hlock] at h
    · have hstart : start ≠ 0 := fun e => hv (Or.inl e)
      have hidx : index < FREE_LIST_SIZE := Nat.lt_of_not_le (fun e => hv (Or.inr e))
      rw [ReturnRange_valid cfg currentTime now fuel start size index s hidx hstart
        (by simpa using hlock)] at h
      split_ifs at h
      · simp only [Option.map_eq_some'] at h
        obtain ⟨s2, hp, rfl⟩ := h
        have := PerformDelayedReturn_kept cfg now fuel index _ s2 hp
        exact this
      · simp only [Option.map_some', Option.some.injEq] at h
        subst h
        exact ⟨rfl, fun _ => ⟨rfl, rfl⟩⟩

theorem carveSpan_kept (cfg : Config) (index size result : Nat) (s : CentralCache)
    (hcount : s.spanCount + 1 < SIZE_T_RANGE) :
    TrackersKept s (carveSpan cfg index size result s) := by
  unfold carveSpan
  by_cases h1 : 1 < wmul (carvePages cfg size) cfg.PAGE_SIZE / size
  · simp only [if_pos h1]
    refine ⟨?_, fun j hj => ?_⟩
    · show s.spanCount ≤ wadd s.spanCount 1
      rw [wadd_eq hcount]; omega
    · by_cases h2 : s.spanCount < cfg.trackerSlots
      · simp only [if_pos h2, setAt_other _ _ (Nat.ne_of_lt hj), and_self]
      · simp only [if_neg h2, and_self]
  · simp only [if_neg h1]
    exact TrackersKept_refl s

theorem popHead_kept (cfg : Config) (index result : Nat) (s : CentralCache) :
    TrackersKept s (popHead cfg index result s) := by
  unfold popHead
  simp only
  split
  · rename_i t _
    refine ⟨le_refl _, fun j _ => ?_⟩
    by_cases hj : j = t
    · subst hj; simp
    · simp [setAt_other _ _ hj]
  · exact ⟨le_refl _, fun _ _ => ⟨rfl, rfl⟩⟩

/-- `FetchRange` retires no tracker: it registers at most one more slot and keeps the
ranges of the slots registered before. -/
theorem FetchRange_kept (cfg : Config) (allocateSpan : Nat → Nat) (index : Nat)
    (s : CentralCache) (r : Nat × CentralCache) (hcount : s.spanCount + 1 < SIZE_T_RANGE)
    (h : FetchRange cfg allocateSpan index s = some r) : TrackersKept s r.2 := by
  by_cases hidx : FREE_LIST_SIZE ≤ index
  · simp only [FetchRange, if_pos hidx, Option.some.injEq] at h
    subst h
    exact TrackersKept_refl s
  · have hidx2 : index < FREE_LIST_SIZE := Nat.lt_of_not_le hidx
    by_cases hlock : s.locks index = true
    · simp [FetchRange, hidx, hlock] at h
    · have hlock2 : s.locks index = false := by simpa using hlock
      by_cases hhead : s.centralFreeList index = 0
      · rw [FetchRange_miss cfg allocateSpan index s hidx2 hlock2 hhead] at h
        split_ifs at h
        · simp only [Option.some.injEq] at h
          subst h
          exact TrackersKept_refl s
        · simp only [Option.some.injEq] at h
          subst h
          have := carveSpan_kept cfg index (blockSize index)
            (allocateSpan (pagesRequested cfg (blockSize index)))
            { s with
              locks := setAt s.locks index true
              allocLog := pagesRequested cfg (blockSize index) :: s.allocLog } hcount
          exact this
      · rw [FetchRange_hit cfg allocateSpan index s hidx2 hlock2 hhead] at h
        simp only [Option.some.injEq] at h
        subst h
        have := popHead_kept cfg index (s.centralFreeList index)
          { s with locks := setAt s.locks index true }
        exact this

/-- C15 (as stated it fails): in `releasedRun` the delayed-return pass has released the
span at `1048576` (`deallocateSpan(1048576, 8)` is recorded), and `GetSpanTracker` still
returns its tracker, slot 0, for both block addresses of the released range.  In
`reusedRun` the Page Layer hands the range out again: the new span is registered in
slot 1, and the lookup of its block `1064960` still returns the tracker of the released
span. -/
theorem released_tracker_still_matched :
    releasedRun.map (fun r => (r.2.deallocLog, r.2.spanCount, r.2.spanTrackers 0)) =
      some ([(1048576, 8)], 1, ⟨1048576, 8, 2, 2⟩) ∧
    releasedRun.map (fun r => (GetSpanTracker exampleConfig r.2 1048576,
        GetSpanTracker exampleConfig r.2 1064960)) = some (some 0, some 0) ∧
    reusedRun.map (fun r => (r.2.spanCount, r.2.spanTrackers 0, r.2.spanTrackers 1)) =
      some (2, ⟨1048576, 8, 2, 2⟩, ⟨1048576, 8, 2, 1⟩) ∧
    reusedRun.map (fun r => GetSpanTracker exampleConfig r.2 1064960) = some (some 0) := by
  refine ⟨by decide, by decide, by decide, by decide⟩

/-- C15 (amended): no tracker is ever retired.  A `ReturnRange` call, whether or not its
delayed-return pass releases a span, leaves `spanCount_` and the range of every tracker as
they were, so `GetSpanTracker` returns for every address the same tracker as before the
call, for the addresses of a released range too; and a later `FetchRange`, also one that
registers a new span on the same range, does not change the tracker found for an
address that had one. -/
theorem tracker_never_retired (cfg : Config) (currentTime now : Int)
    (fuel start size index : Nat) (s s1 : CentralCache)
    (h : ReturnRange cfg currentTime now fuel start size index s = some s1) :
    s1.spanCount = s.spanCount ∧
    (∀ j, (s1.spanTrackers j).spanAddr = (s.spanTrackers j).spanAddr ∧
      (s1.spanTrackers j).numPages = (s.spanTrackers j).numPages) ∧
    (∀ p, GetSpanTracker cfg s1 p = GetSpanTracker cfg s p) ∧
    (∀ (allocateSpan : Nat → Nat) (index2 : Nat) (r : Nat × CentralCache),
      s1.spanCount + 1 < SIZE_T_RANGE →
      FetchRange cfg allocateSpan index2 s1 = some r →
      ∀ p t, GetSpanTracker cfg s1 p = some t → GetSpanTracker cfg r.2 p = some t) := by
  obtain ⟨h1, h2⟩ := ReturnRange_kept cfg currentTime now fuel start size index s s1 h
  refine ⟨h1, h2, fun p => ?_, fun allocateSpan index2 r hc hf p t hp => ?_⟩
  · unfold GetSpanTracker
    rw [h1]
    congr 1
    funext i
    rw [(h2 i).1, (h2 i).2]
  · exact GetSpanTracker_kept cfg (FetchRange_kept cfg allocateSpan index2 s1 r hc hf) hp

theorem tracker_never_retired_witness :
    ∃ s1, ReturnRange exampleConfig 1000000000 1000000000 4 1064960 16384 2047 releaseExample =
        some s1 ∧
      s1.deallocLog = [(1048576, 8)] ∧ s1.spanCount = 1 ∧
      GetSpanTracker exampleConfig s1 1064960 = some 0 := by
  have hsome : (ReturnRange exampleConfig 1000000000 1000000000 4 1064960 16384 2047
      releaseExample).isSome = true := by decide
  obtain ⟨s1, h⟩ := Option.isSome_iff_exists.mp hsome
  have hlog : (ReturnRange exampleConfig 1000000000 1000000000 4 1064960 16384 2047
      releaseExample).map (fun r => r.deallocLog) = some [(1048576, 8)] := by decide
  rw [h] at hlog
  obtain ⟨h1, _, h3, _⟩ :=
    tracker_never_retired exampleConfig 1000000000 1000000000 4 1064960 16384 2047
      releaseExample s1 h
  refine ⟨s1, h, by simpa using hlog, h1, ?_⟩
  rw [h3]
  decide


/-! ## The link word of a returned block -/

/-- C16 (the code at the failing input): class 4095 has blocks of 32768 bytes, one per
span of 8 pages; on a heap whose words hold `12345` the miss returns the span base
`1048576` and the first word of the returned block still holds `12345`, not null. -/
theorem single_block_link_not_null :
    4095 < FREE_LIST_SIZE ∧ dirtyCache.centralFreeList 4095 = 0 ∧
      carvePages exampleConfig (blockSize 4095) * exampleConfig.PAGE_SIZE / blockSize 4095 = 1 ∧
      (FetchRange exampleConfig (fun _ => 1048576) 4095 dirtyCache).map
          (fun r => (r.1, r.2.mem r.1)) = some (1048576, 12345) := by
  decide

/-- The link word of the block that `FetchRange index` returns, for every prior contents
of the heap: null on the hit path, and on a miss when the freshly carved span holds at
least two blocks; when the span holds only one block, `FetchRange` writes nothing, and the
first word of the returned block keeps its prior contents. -/
theorem returned_block_link (cfg : Config) (allocateSpan : Nat → Nat) (index : Nat)
    (s : CentralCache) (hidx : index < FREE_LIST_SIZE) (hlock : s.locks index = false)
    (_hpage : 0 < cfg.PAGE_SIZE) :
    (s.centralFreeList index ≠ 0 →
      ∃ s1, FetchRange cfg allocateSpan index s = some (s.centralFreeList index, s1) ∧
        s1.mem (s.centralFreeList index) = 0) ∧
    (s.centralFreeList index = 0 →
      ∀ start, allocateSpan (pagesRequested cfg (blockSize index)) = start → start ≠ 0 →
        start + carvePages cfg (blockSize index) * cfg.PAGE_SIZE ≤ SIZE_T_RANGE →
        ∃ s1, FetchRange cfg allocateSpan index s = some (start, s1) ∧
          (2 ≤ carvePages cfg (blockSize index) * cfg.PAGE_SIZE / blockSize index →
            s1.mem start = 0) ∧
          (carvePages cfg (blockSize index) * cfg.PAGE_SIZE / blockSize index < 2 →
            s1.mem = s.mem)) := by
  refine ⟨fun hhead => ?_, fun hempty start halloc hstart hspan => ?_⟩
  · rw [FetchRange_hit cfg allocateSpan index s hidx hlock hhead]
    refine ⟨_, rfl, ?_⟩
    simp only [unlock_mem, popHead]
    split <;> exact Heap.write_same _ _ _
  · rw [FetchRange_miss cfg allocateSpan index s hidx hlock hempty, halloc, if_neg hstart]
    refine ⟨_, rfl, fun h2 => ?_, fun h1 => ?_⟩
    · simp only [unlock_mem, carveSpan, blockNum_eq cfg (blockSize index) start hstart hspan,
        if_pos (show 1 < carvePages cfg (blockSize index) * cfg.PAGE_SIZE / blockSize index
          from h2)]
      exact Heap.write_same _ _ _
    · simp only [unlock_mem, carveSpan, blockNum_eq cfg (blockSize index) start hstart hspan,
        if_neg (show ¬ 1 < carvePages cfg (blockSize index) * cfg.PAGE_SIZE / blockSize index
          by omega)]

theorem returned_block_link_witness :
    (1023 < FREE_LIST_SIZE ∧ dirtyCache.locks 1023 = false ∧ 0 < exampleConfig.PAGE_SIZE ∧
      dirtyCache.centralFreeList 1023 = 0 ∧
      2 ≤ carvePages exampleConfig (blockSize 1023) * exampleConfig.PAGE_SIZE /
        blockSize 1023) ∧
    ∃ s1, FetchRange exampleConfig (fun _ => 1048576) 1023 dirtyCache = some (1048576, s1) ∧
      s1.mem 1048576 = 0 := by
  refine ⟨by decide, ?_⟩
  obtain ⟨s1, h1, h2, _⟩ :=
    (returned_block_link exampleConfig (fun _ => 1048576) 1023 dirtyCache (by decide) rfl
      (by decide)).2 rfl 1048576 rfl (by decide) (by decide)
  exact ⟨s1, h1, h2 (by decide)⟩


/-! ## Span lookup -/

theorem inSpan_iff (cfg : Config) (spanAddr numPages p : Nat)
    (h : spanAddr + numPages * cfg.PAGE_SIZE < SIZE_T_RANGE) :
    inSpan cfg spanAddr numPages p = true ↔
      spanAddr ≤ p ∧ p < spanAddr + numPages * cfg.PAGE_SIZE := by
  unfold inSpan
  rw [wmul_eq (by omega), wadd_eq h]
  simp

/-- C17: when the end of every registered span is representable (`span_addr +
num_pages * PAGE_SIZE < 2 ^ 64`), `GetSpanTracker p` returns slot `t` exactly when `t` is
the lowest of the first `spanCount` slots with
`span_addr ≤ p < span_addr + num_pages * PAGE_SIZE`, and returns null exactly when no
such slot exists. -/
theorem span_lookup (cfg : Config) (s : CentralCache) (p : Nat)
    (hranges : ∀ i, i < s.spanCount →
      (s.spanTrackers i).spanAddr + (s.spanTrackers i).numPages * cfg.PAGE_SIZE <
        SIZE_T_RANGE) :
    (∀ t, GetSpanTracker cfg s p = some t ↔
      t < s.spanCount ∧
      ((s.spanTrackers t).spanAddr ≤ p ∧
        p < (s.spanTrackers t).spanAddr + (s.spanTrackers t).numPages * cfg.PAGE_SIZE) ∧
      ∀ j, j < t →
        ¬ ((s.spanTrackers j).spanAddr ≤ p ∧
          p < (s.spanTrackers j).spanAddr + (s.spanTrackers j).numPages * cfg.PAGE_SIZE)) ∧
    (GetSpanTracker cfg s p = none ↔
      ∀ j, j < s.spanCount →
        ¬ ((s.spanTrackers j).spanAddr ≤ p ∧
          p < (s.spanTrackers j).spanAddr + (s.spanTrackers j).numPages * cfg.PAGE_SIZE)) := by
  have hfalse : ∀ j, j < s.spanCount →
      (inSpan cfg (s.spanTrackers j).spanAddr (s.spanTrackers j).numPages p = false ↔
        ¬ ((s.spanTrackers j).spanAddr ≤ p ∧
          p < (s.spanTrackers j).spanAddr + (s.spanTrackers j).numPages * cfg.PAGE_SIZE)) := by
    intro j hj
    rw [← inSpan_iff cfg _ _ p (hranges j hj)]
    simp
  refine ⟨fun t => ?_, ?_⟩
  · rw [GetSpanTracker_eq_some]
    constructor
    · rintro ⟨h1, h2, h3⟩
      exact ⟨h1, (inSpan_iff cfg _ _ p (hranges t h1)).mp h2,
        fun j hj => (hfalse j (lt_trans hj h1)).mp (h3 j hj)⟩
    · rintro ⟨h1, h2, h3⟩
      exact ⟨h1, (inSpan_iff cfg _ _ p (hranges t h1)).mpr h2,
        fun j hj => (hfalse j (lt_trans hj h1)).mpr (h3 j hj)⟩
  · rw [GetSpanTracker_eq_none]
    constructor
    · intro h j hj
      exact (hfalse j hj).mp (h j hj)
    · intro h j hj
      exact (hfalse j hj).mpr (h j hj)

theorem span_lookup_witness :
    (∀ i, i < hitExample.spanCount →
      (hitExample.spanTrackers i).spanAddr +
        (hitExample.spanTrackers i).numPages * exampleConfig.PAGE_SIZE < SIZE_T_RANGE) ∧
    GetSpanTracker exampleConfig hitExample 1056768 = some 0 ∧
    GetSpanTracker exampleConfig hitExample 4096 = none := by
  have hr : ∀ i, i < hitExample.spanCount →
      (hitExample.spanTrackers i).spanAddr +
        (hitExample.spanTrackers i).numPages * exampleConfig.PAGE_SIZE < SIZE_T_RANGE := by
    intro i hi
    have : i = 0 := by
      have : hitExample.spanCount = 1 := rfl
      omega
    subst this
    decide
  refine ⟨hr, ?_, ?_⟩
  · exact ((span_lookup exampleConfig hitExample 1056768 hr).1 0).mpr
      ⟨by decide, by decide, fun j hj => by omega⟩
  · refine (span_lookup exampleConfig hitExample 4096 hr).2.mpr (fun j hj => ?_)
    have : j = 0 := by
      have : hitExample.spanCount = 1 := rfl
      omega
    subst this
    decide


/-! ## A full tracker store -/

/-- The free list that carving publishes: blocks `1 … n - 1` of the span. -/
theorem carveSpan_list (cfg : Config) (index start : Nat) (s : CentralCache)
    (hidx : index < FREE_LIST_SIZE) (hempty : s.centralFreeList index = 0)
    (hstart : start ≠ 0)
    (hspan : start + carvePages cfg (blockSize index) * cfg.PAGE_SIZE ≤ SIZE_T_RANGE) :
    IsList (carveSpan cfg index (blockSize index) start s).mem
      ((carveSpan cfg index (blockSize index) start s).centralFreeList index)
      (spanBlocks start (blockSize index) 1
        (carvePages cfg (blockSize index) * cfg.PAGE_SIZE / blockSize index - 1)) := by
  have hsize := blockSize_eq index hidx
  have hsz : 0 < blockSize index := by omega
  generalize hn : carvePages cfg (blockSize index) * cfg.PAGE_SIZE / blockSize index = n
  have hnsz : n * blockSize index ≤ carvePages cfg (blockSize index) * cfg.PAGE_SIZE := by
    rw [← hn]; exact Nat.div_mul_le_self _ _
  unfold carveSpan
  simp only [blockNum_eq cfg (blockSize index) start hstart hspan, hn]
  by_cases h1 : 1 < n
  · simp only [if_pos h1]
    obtain ⟨hnext, hlink, hlast⟩ :=
      carve_heap s.mem start (blockSize index) n hsz h1 hstart (by omega)
    simp only [setAt_same, hnext]
    have h := IsList_spanBlocks
      (((carveLoop start (blockSize index) n 0 s.mem).write
        (wadd start (wmul (wsub n 1) (blockSize index))) 0).write start 0)
      start (blockSize index) hstart (n - 1) 1
      (fun j hj1 hj2 => hlink j hj1 (by omega))
      (fun _ => by
        rw [show 1 + (n - 1) - 1 = n - 1 by omega]
        exact hlast)
    rw [if_neg (by omega)] at h
    simpa using h
  · simp only [if_neg h1]
    have : n - 1 = 0 := by omega
    simp [this, spanBlocks, IsList, hempty]

/-- With the store full, carving writes no tracker slot. -/
theorem carveSpan_full (cfg : Config) (index size result : Nat) (s : CentralCache)
    (hfull : cfg.trackerSlots ≤ s.spanCount) :
    (carveSpan cfg index size result s).spanTrackers = s.spanTrackers := by
  simp only [carveSpan]
  by_cases h1 : 1 < wmul (carvePages cfg size) cfg.PAGE_SIZE / size
  · simp only [if_pos h1, if_neg (Nat.not_lt.mpr hfull)]
  · simp only [if_neg h1]

theorem carveSpan_spanCount (cfg : Config) (index size result : Nat) (s : CentralCache)
    (h : 1 < wmul (carvePages cfg size) cfg.PAGE_SIZE / size) :
    (carveSpan cfg index size result s).spanCount = wadd s.spanCount 1 ∧
    ∀ j, j ≠ index →
      (carveSpan cfg index size result s).centralFreeList j = s.centralFreeList j := by
  unfold carveSpan
  simp only [if_pos h]
  exact ⟨trivial, fun j hj => setAt_other _ _ hj⟩

theorem carveSpan_locks (cfg : Config) (index size result : Nat) (s : CentralCache) :
    (carveSpan cfg index size result s).locks = s.locks := by
  simp only [carveSpan]
  split_ifs <;> rfl

/-- Every class up to 1023 has at least two blocks in a span of 8 pages of 4096 bytes. -/
theorem exampleConfig_blockNum (k : Nat) (hk : k ≤ 1024) :
    1 < wmul (carvePages exampleConfig (blockSize k)) exampleConfig.PAGE_SIZE / blockSize k := by
  have hF : FREE_LIST_SIZE = 32768 := by decide
  have hA : ALIGNMENT = 8 := rfl
  have hb := blockSize_eq k (by omega)
  have h8 : wmul SPAN_PAGES exampleConfig.PAGE_SIZE = 32768 := by decide
  have hc : carvePages exampleConfig (blockSize k) = SPAN_PAGES := by
    unfold carvePages
    rw [h8, if_pos (by omega)]
  rw [hc, h8]
  exact (Nat.le_div_iff_mul_le (by omega)).mpr (by omega)

/-- The run `fillRun k` returns, with `k` spans counted, the classes from `k` on still
empty and all locks free. -/
theorem fillRun_spec : ∀ k, k ≤ 1024 →
    ∃ s, fillRun k = some s ∧ s.spanCount = k ∧
      (∀ j, k ≤ j → s.centralFreeList j = 0) ∧ (∀ j, s.locks j = false) := by
  intro k
  induction k with
  | zero => intro _; exact ⟨emptyCache, rfl, rfl, fun _ _ => rfl, fun _ => rfl⟩
  | succ k ih =>
    intro hk
    obtain ⟨s, h1, h2, h3, h4⟩ := ih (by omega)
    have hF : FREE_LIST_SIZE = 32768 := by decide
    have hstart : 1048576 + k * 32768 ≠ 0 := by omega
    have hm := FetchRange_miss exampleConfig (fun _ => 1048576 + k * 32768) k s (by omega)
      (h4 k) (h3 k (le_refl _))
    simp only [if_neg hstart] at hm
    obtain ⟨c1, c2⟩ := carveSpan_spanCount exampleConfig k (blockSize k)
      (1048576 + k * 32768)
      { s with
        locks := setAt s.locks k true
        allocLog := pagesRequested exampleConfig (blockSize k) :: s.allocLog }
      (exampleConfig_blockNum k (by omega))
    have hrun : fillRun (k + 1) = some (unlock k (carveSpan exampleConfig k (blockSize k)
        (1048576 + k * 32768)
        { s with
          locks := setAt s.locks k true
          allocLog := pagesRequested exampleConfig (blockSize k) :: s.allocLog })) := by
      rw [fillRun, h1, Option.some_bind, hm]
      rfl
    refine ⟨_, hrun, ?_, ?_, ?_⟩
    · simp only [unlock_spanCount]
      rw [c1]
      show wadd s.spanCount 1 = k + 1
      rw [h2, wadd_eq (by unfold SIZE_T_RANGE; omega)]
    · intro j hj
      simp only [unlock_centralFreeList]
      rw [c2 j (by omega)]
      exact h3 j (by omega)
    · intro j
      by_cases hjk : j = k
      · subst hjk; exact unlock_locks_same _ _
      · rw [unlock_locks_other _ hjk]
        rw [carveSpan_locks]
        show setAt s.locks k true j = false
        rw [setAt_other _ _ hjk]
        exact h4 j


/-- C18 (as stated it fails): `fillRun 1024` is a run of 1024 misses from the empty cache
that fills the 1024 tracker slots; the next miss, on class 1024, is not fatal: it returns
the non-null span base, leaves the tracker slots as they are and raises `spanCount` to
1025, above the capacity. -/
theorem full_store_not_fatal :
    ∃ s, fillRun 1024 = some s ∧ s.spanCount = exampleConfig.trackerSlots ∧
      ∃ s1, FetchRange exampleConfig (fun _ => 34603008) 1024 s = some (34603008, s1) ∧
        s1.spanTrackers = s.spanTrackers ∧
        s1.spanCount = exampleConfig.trackerSlots + 1 ∧
        exampleConfig.trackerSlots < s1.spanCount := by
  obtain ⟨s, h1, h2, h3, h4⟩ := fillRun_spec 1024 (le_refl _)
  have hm := FetchRange_miss exampleConfig (fun _ => 34603008) 1024 s (by decide)
    (h4 1024) (h3 1024 (le_refl _))
  simp only [if_neg (show (34603008 : Nat) ≠ 0 by decide)] at hm
  have hfull : exampleConfig.trackerSlots ≤ s.spanCount := by rw [h2]; decide
  obtain ⟨c1, _⟩ := carveSpan_spanCount exampleConfig 1024 (blockSize 1024) 34603008
    { s with
      locks := setAt s.locks 1024 true
      allocLog := pagesRequested exampleConfig (blockSize 1024) :: s.allocLog }
    (exampleConfig_blockNum 1024 (le_refl _))
  have hcount : (unlock 1024 (carveSpan exampleConfig 1024 (blockSize 1024) 34603008
      { s with
        locks := setAt s.locks 1024 true
        allocLog := pagesRequested exampleConfig (blockSize 1024) :: s.allocLog })).spanCount =
      exampleConfig.trackerSlots + 1 := by
    rw [unlock_spanCount, c1]
    show wadd s.spanCount 1 = exampleConfig.trackerSlots + 1
    rw [h2]
    decide
  refine ⟨s, h1, h2, _, hm, ?_, hcount, by rw [hcount]; omega⟩
  rw [unlock_spanTrackers]
  exact carveSpan_full exampleConfig 1024 (blockSize 1024) 34603008 _ hfull

/-- C18 (amended): a `FetchRange` miss while the tracker store is full (`spanCount` at or
above the capacity of `spanTrackers_`) is not fatal: the call carves the span, returns
its first block, publishes blocks `1 … block_count - 1` as the class free list, releases
the lock, and writes no tracker slot, so the new span is untracked. -/
theorem full_store_miss (cfg : Config) (allocateSpan : Nat → Nat) (index start : Nat)
    (s : CentralCache) (hidx : index < FREE_LIST_SIZE) (hlock : s.locks index = false)
    (hempty : s.centralFreeList index = 0) (_hpage : 0 < cfg.PAGE_SIZE)
    (halloc : allocateSpan (pagesRequested cfg (blockSize index)) = start)
    (hstart : start ≠ 0)
    (hspan : start + carvePages cfg (blockSize index) * cfg.PAGE_SIZE ≤ SIZE_T_RANGE)
    (hfull : cfg.trackerSlots ≤ s.spanCount) :
    ∃ s1, FetchRange cfg allocateSpan index s = some (start, s1) ∧
      s1.spanTrackers = s.spanTrackers ∧ s1.locks index = false ∧
      IsList s1.mem (s1.centralFreeList index)
        (spanBlocks start (blockSize index) 1
          (carvePages cfg (blockSize index) * cfg.PAGE_SIZE / blockSize index - 1)) := by
  rw [FetchRange_miss cfg allocateSpan index s hidx hlock hempty, halloc, if_neg hstart]
  refine ⟨_, rfl, ?_, unlock_locks_same _ _, ?_⟩
  · rw [unlock_spanTrackers]
    exact carveSpan_full cfg index (blockSize index) start _ hfull
  · rw [unlock_mem, unlock_centralFreeList]
    exact carveSpan_list cfg index start _ hidx hempty hstart hspan

theorem full_store_miss_witness :
    (1023 < FREE_LIST_SIZE ∧ fullExample.locks 1023 = false ∧
      fullExample.centralFreeList 1023 = 0 ∧
      exampleConfig.trackerSlots ≤ fullExample.spanCount) ∧
    ∃ s1, FetchRange exampleConfig (fun _ => 1048576) 1023 fullExample = some (1048576, s1) ∧
      s1.spanTrackers = fullExample.spanTrackers ∧
      IsList s1.mem (s1.centralFreeList 1023) [1056768, 1064960, 1073152] := by
  refine ⟨by decide, ?_⟩
  obtain ⟨s1, h1, h2, _, h3⟩ :=
    full_store_miss exampleConfig (fun _ => 1048576) 1023 1048576 fullExample
      (by decide) rfl rfl (by decide) rfl (by decide) (by decide) (by decide)
  have e : spanBlocks 1048576 (blockSize 1023) 1
      (carvePages exampleConfig (blockSize 1023) * exampleConfig.PAGE_SIZE / blockSize 1023 - 1)
      = [1056768, 1064960, 1073152] := by decide
  rw [e] at h3
  exact ⟨s1, h1, h2, h3⟩


/-! ## The carving frame -/

/-- C19 (the code at the failing input): on the empty cache with a zeroed heap,
`FetchRange 1023` misses and carves the span `[1048576, 1048576 + 32768)` into blocks of
8192 bytes; the word at `1040384 = 1048576 - 8192`, which lies below the span, held 0
before the call and holds `1048576` after it: iteration `i = 0` of the carving loop stores
`start` at `start + (i - 1) * size`. -/
theorem carving_writes_below_span :
    emptyCache.mem 1040384 = 0 ∧ 1040384 < 1048576 ∧
    carvePages exampleConfig (blockSize 1023) * exampleConfig.PAGE_SIZE = 32768 ∧
    wadd 1048576 (wmul (wsub 0 1) (blockSize 1023)) = 1040384 ∧
    (FetchRange exampleConfig (fun _ => 1048576) 1023 emptyCache).map
        (fun r => (r.1, r.2.mem 1040384)) = some (1048576, 1048576) := by
  refine ⟨rfl, by decide, by decide, by decide, by decide⟩

/-! ## Round trip through the Central Cache -/

theorem findEnd_detached (m : Heap) (blockCount bound p count : Nat) (h : m p = 0) :
    findEnd m blockCount bound p count = p := by
  cases bound <;> simp [findEnd, h]

theorem IsList_head_eq {m m2 : Heap} {h h2 : Nat} {l : List Nat} (h1 : IsList m h l)
    (h3 : IsList m2 h2 l) : h = h2 := by
  cases l with
  | nil => rw [IsList_nil] at h1 h3; rw [h1, h3]
  | cons b bs => rw [h1.1, h3.1]

/-- A valid `ReturnRange` call returns with the lock released; unless its pass recorded a
`deallocateSpan` call, the heap and the list heads are those of the linked state. -/
theorem ReturnRange_linked (cfg : Config) (currentTime now : Int)
    (fuel start size index : Nat) (s : CentralCache) (l : List Nat)
    (hidx : index < FREE_LIST_SIZE) (hlock : s.locks index = false) (hstart : start ≠ 0)
    (hl : IsList (linkedState start size index s).mem
      ((linkedState start size index s).centralFreeList index) l)
    (hfuel : l.length ≤ fuel) :
    ∃ s1, ReturnRange cfg currentTime now fuel start size index s = some s1 ∧
      s1.locks index = false ∧
      (s1.deallocLog = s.deallocLog →
        s1.mem = (linkedState start size index s).mem ∧
        s1.centralFreeList = (linkedState start size index s).centralFreeList) := by
  rw [ReturnRange_valid cfg currentTime now fuel start size index s hidx hstart hlock]
  split_ifs with hc
  · obtain ⟨s1, l1, h1, _, _, _, _, _, _, _, _, h2⟩ :=
      PerformDelayedReturn_spec cfg now fuel index (linkedState start size index s) l hl hfuel
    refine ⟨unlock index s1, by rw [h1]; rfl, unlock_locks_same _ _, fun hd => ?_⟩
    have hd2 : s1.deallocLog = (linkedState start size index s).deallocLog := hd
    obtain ⟨e1, e2, _⟩ := h2 (by rw [hd2])
    exact ⟨e1, e2⟩
  · exact ⟨unlock index (linkedState start size index s), rfl, unlock_locks_same _ _,
      fun _ => ⟨rfl, rfl⟩⟩

/-- C20: for `index < FREE_LIST_SIZE`, a free lock, a class list `old` and a single
detached block `p` that is not in `old`, `ReturnRange(p, block_size(index), index)`
returns; unless its delayed-return pass released a span, the `FetchRange index` that
follows returns `p`, the class list is `old` again with the head it had before the
return, the link of `p` is null and no other word of the heap has changed. -/
theorem central_round_trip (cfg : Config) (allocateSpan : Nat → Nat)
    (currentTime now : Int) (fuel index p : Nat) (s : CentralCache) (old : List Nat)
    (hidx : index < FREE_LIST_SIZE) (hlock : s.locks index = false) (hp : p ≠ 0)
    (hdet : s.mem p = 0) (hold : IsList s.mem (s.centralFreeList index) old)
    (hnot : p ∉ old) (hfuel : old.length + 1 ≤ fuel) :
    ∃ s1, ReturnRange cfg currentTime now fuel p (blockSize index) index s = some s1 ∧
      (s1.deallocLog = s.deallocLog →
        ∃ s2, FetchRange cfg allocateSpan index s1 = some (p, s2) ∧
          IsList s2.mem (s2.centralFreeList index) old ∧
          s2.centralFreeList = s.centralFreeList ∧
          s2.mem p = 0 ∧ s2.mem = s.mem) := by
  -- the linked state: `p` in front of `old`
  have hlmem : (linkedState p (blockSize index) index s).mem =
      s.mem.write p (s.centralFreeList index) := by
    show s.mem.write (findEnd s.mem _ _ p 1) (s.centralFreeList index) = _
    rw [findEnd_detached _ _ _ _ _ hdet]
  have hlhead : (linkedState p (blockSize index) index s).centralFreeList =
      setAt s.centralFreeList index p := rfl
  have hlink : IsList (linkedState p (blockSize index) index s).mem
      ((linkedState p (blockSize index) index s).centralFreeList index) (p :: old) := by
    rw [hlmem, hlhead, setAt_same]
    exact ⟨rfl, hp, by rw [Heap.write_same]; exact IsList_write p _ hnot hold⟩
  obtain ⟨s1, h1, h2, h3⟩ := ReturnRange_linked cfg currentTime now fuel p (blockSize index)
    index s (p :: old) hidx hlock hp hlink (by simpa using hfuel)
  refine ⟨s1, h1, fun hd => ?_⟩
  obtain ⟨e1, e2⟩ := h3 hd
  have hhead : s1.centralFreeList index = p := by rw [e2, hlhead, setAt_same]
  rw [FetchRange_hit cfg allocateSpan index s1 hidx h2 (by rw [hhead]; exact hp), hhead]
  have hmem2 : (unlock index (popHead cfg index p
      { s1 with locks := setAt s1.locks index true })).mem = s1.mem.write p 0 := by
    simp only [unlock_mem, popHead]
    split <;> rfl
  have hhead2 : (unlock index (popHead cfg index p
      { s1 with locks := setAt s1.locks index true })).centralFreeList =
      setAt s1.centralFreeList index (s1.mem p) := by
    simp only [unlock_centralFreeList, popHead]
    split <;> rfl
  have hnext : s1.mem p = s.centralFreeList index := by
    rw [e1, hlmem, Heap.write_same]
  have hfinal : s1.mem.write p 0 = s.mem := by
    funext a
    by_cases ha : a = p
    · subst ha; rw [Heap.write_same, hdet]
    · rw [Heap.write_other _ _ ha, e1, hlmem, Heap.write_other _ _ ha]
  have hheads : setAt s1.centralFreeList index (s1.mem p) = s.centralFreeList := by
    funext j
    by_cases hj : j = index
    · subst hj; rw [setAt_same, hnext]
    · rw [setAt_other _ _ hj, e2, hlhead, setAt_other _ _ hj]
  refine ⟨_, rfl, ?_, ?_, ?_, ?_⟩
  · rw [hmem2, hhead2, hfinal, hheads]; exact hold
  · rw [hhead2, hheads]
  · rw [hmem2, Heap.write_same]
  · rw [hmem2, hfinal]

theorem central_round_trip_witness :
    (1023 < FREE_LIST_SIZE ∧ hitExample.locks 1023 = false ∧ hitExample.mem 1048576 = 0 ∧
      IsList hitExample.mem (hitExample.centralFreeList 1023) [1056768, 1064960]) ∧
    ∃ s1, ReturnRange exampleConfig 0 0 10 1048576 (blockSize 1023) 1023 hitExample = some s1 ∧
      ∃ s2, FetchRange exampleConfig (fun _ => 0) 1023 s1 = some (1048576, s2) ∧
        IsList s2.mem (s2.centralFreeList 1023) [1056768, 1064960] := by
  have hl : IsList hitExample.mem (hitExample.centralFreeList 1023) [1056768, 1064960] :=
    ⟨rfl, by decide, rfl, by decide, rfl⟩
  refine ⟨⟨by decide, rfl, rfl, hl⟩, ?_⟩
  obtain ⟨s1, h1, h2⟩ :=
    central_round_trip exampleConfig (fun _ => 0) 0 0 10 1023 1048576 hitExample
      [1056768, 1064960] (by decide) rfl (by decide) rfl hl (by decide) (by decide)
  have hd : (ReturnRange exampleConfig 0 0 10 1048576 (blockSize 1023) 1023 hitExample).map
      (fun r => r.deallocLog) = some [] := by decide
  rw [h1] at hd
  obtain ⟨s2, h3, h4, _⟩ := h2 (by simpa using hd)
  exact ⟨s1, h1, s2, h3, h4⟩

end My_MemoryPool
